import Mathlib

/-
Verification of the FileHandler tool server (src/servers/filehandler.py).

The filesystem is modelled as an inductive tree of named files and
directories; os.walk becomes a fuel-bounded top-down recursion; the
wall-clock timeout of search_drive becomes an explicit budget of clock
readings (the number of readings that report "not yet timed out" before
every later reading reports a timeout, which is how a monotone wall clock
crossing a fixed deadline behaves).  Machine integers are Int/Nat; every
tool is a total Lean function.  Result messages are modelled without the
single-quote characters the f-strings put around interpolated paths, and
without the numeric elapsed-seconds figures (wall time is not modelled);
no claim depends on either.
-/

namespace FileHandler

/-- A filesystem entry: a file with a name and a size in bytes, or a
directory with a name and an ordered list of children (listing order). -/
inductive FsNode where
  | file (name : String) (size : Nat)
  | dir  (name : String) (children : List FsNode)

/-- The reading of glob patterns the spec describes: only the star and
question-mark wildcards, every other character literal.  Kept as a named
definition so the fnmatch embedding below can be compared against it:
they agree exactly on bracket-free patterns, and differ on character
classes. -/
def globStarQ : List Char → List Char → Bool
  | [], s => s.isEmpty
  | '*' :: ps, s => s.tails.any (fun t => globStarQ ps t)
  | '?' :: ps, s =>
    match s with
    | [] => false
    | _ :: s2 => globStarQ ps s2
  | c :: ps, s =>
    match s with
    | [] => false
    | d :: s2 => c == d && globStarQ ps s2

/-- One element of a parsed fnmatch pattern: a star, a question mark, a
literal character, or a character class with its negation flag and its
list of inclusive ranges (a single member c is the range c-c). -/
inductive GlobTok where
  | star
  | qmark
  | lit (c : Char)
  | cls (neg : Bool) (items : List (Char × Char))

/-- The members and ranges of a class body (the text between the brackets,
after the optional negation mark): x-y is the inclusive range, a hyphen in
first or last position is literal, as in fnmatch.translate. -/
def classItems : List Char → List (Char × Char)
  | x :: '-' :: y :: rest => (x, y) :: classItems rest
  | x :: rest => (x, x) :: classItems rest
  | [] => []

/-- Split a character list at its first closing bracket. -/
def scanTo (s : List Char) : Option (List Char × List Char) :=
  match s with
  | [] => none
  | ']' :: rest => some ([], rest)
  | c :: rest =>
    match scanTo rest with
    | none => none
    | some (a, b) => some (c :: a, b)

/-- fnmatch.translate's bracket scan, applied to the text after an opening
bracket: an optional negation mark, then an optional leading closing
bracket taken as a literal member, then everything up to the next closing
bracket; none when no closing bracket exists (the opening bracket is then
a literal). -/
def classSpan (s : List Char) : Option (Bool × List Char × List Char) :=
  match s with
  | '!' :: s1 =>
    (match s1 with
     | ']' :: r2 =>
       match scanTo r2 with
       | none => none
       | some (a, b) => some (true, ']' :: a, b)
     | _ =>
       match scanTo s1 with
       | none => none
       | some (a, b) => some (true, a, b))
  | _ =>
    match s with
    | ']' :: r2 =>
      (match scanTo r2 with
       | none => none
       | some (a, b) => some (false, ']' :: a, b))
    | _ =>
      match scanTo s with
      | none => none
      | some (a, b) => some (false, a, b)

/-- The tokens of an fnmatch pattern; the fuel (any bound on the pattern
length) keeps the recursion structural across the variable-length bracket
scan. -/
def globToksAux : Nat → List Char → List GlobTok
  | 0, _ => []
  | _ + 1, [] => []
  | fuel + 1, c :: rest =>
    if c = '*' then GlobTok.star :: globToksAux fuel rest
    else if c = '?' then GlobTok.qmark :: globToksAux fuel rest
    else if c = '[' then
      match classSpan rest with
      | none => GlobTok.lit '[' :: globToksAux fuel rest
      | some (neg, body, rest2) => GlobTok.cls neg (classItems body) :: globToksAux fuel rest2
    else GlobTok.lit c :: globToksAux fuel rest

/-- Parse an fnmatch pattern into tokens. -/
def globToks (p : List Char) : List GlobTok := globToksAux p.length p

/-- The token a single pattern character yields outside any bracket: the
tokenizer restricted to bracket-free patterns maps characters one to one
through this function. -/
def charTok (c : Char) : GlobTok :=
  if c = '*' then GlobTok.star
  else if c = '?' then GlobTok.qmark
  else GlobTok.lit c

/-- Class membership: some range contains the character (by code point). -/
def inClass (items : List (Char × Char)) (d : Char) : Bool :=
  items.any (fun r => decide (r.1.toNat ≤ d.toNat) && decide (d.toNat ≤ r.2.toNat))

/-- Matching a token list against a name: a star matches any suffix split,
a question mark or a class consumes exactly one character, a literal
consumes itself. -/
def tokMatch : List GlobTok → List Char → Bool
  | [], s => s.isEmpty
  | GlobTok.star :: ts, s => s.tails.any (fun t => tokMatch ts t)
  | GlobTok.qmark :: ts, s =>
    match s with
    | [] => false
    | _ :: s2 => tokMatch ts s2
  | GlobTok.lit c :: ts, s =>
    match s with
    | [] => false
    | d :: s2 => c == d && tokMatch ts s2
  | GlobTok.cls neg items :: ts, s =>
    match s with
    | [] => false
    | d :: s2 => (inClass items d != neg) && tokMatch ts s2

/-- fnmatch.fnmatch as the source calls it: star, question mark, and
bracketed character classes with optional negation; an unclosed bracket is
a literal.  Ranges are inclusive by code point (a reversed range matches
nothing).  Modelled with the POSIX behaviour, in which fnmatch performs no
case folding of its own; on Windows fnmatch lowercases both arguments via
os.path.normcase, which matters only when case_sensitive is true. -/
def globMatch (p s : List Char) : Bool := tokMatch (globToks p) s

/-- The Python substring test: the needle occurs contiguously in the hay. -/
def containsSub (needle hay : List Char) : Bool :=
  hay.tails.any (fun t => needle.isPrefixOf t)

/-- Python str.lower, character by character (the names and patterns the
server handles are ASCII, where this agrees with Python). -/
def lowerStr (s : String) : String := ⟨s.data.map Char.toLower⟩

/-- Python str.replace(old, '') on character lists: scan left to right,
delete each non-overlapping occurrence of old, keep everything else (for
an empty old the result is the input, as replace with an empty
replacement inserts nothing).  The fuel, any bound on the input length,
keeps the recursion structural. -/
def dropOccAux (old : List Char) : Nat → List Char → List Char
  | 0, _ => []
  | _ + 1, [] => []
  | fuel + 1, c :: rest =>
    if !old.isEmpty && old.isPrefixOf (c :: rest) then
      dropOccAux old fuel ((c :: rest).drop old.length)
    else c :: dropOccAux old fuel rest

/-- Python s.replace(old, '') on strings. -/
def pyReplaceEmpty (s old : String) : String :=
  ⟨dropOccAux old.data s.data.length s.data⟩

/-- Occurrences of the path separator. -/
def sepCount (s : String) : Nat := s.data.count '/'

/-- The depth the source computes for a walk root
(filehandler.py:1444 and 1317): delete every occurrence of the search
path from the root and count the separators that remain.  For a search
path that occurs exactly once, as a prefix, and is not
separator-terminated, this is the number of name components below the
search path; for the default separator-terminated drive roots or a
re-occurring search path it under-counts, and the traversal then goes
correspondingly deeper. -/
def current_depth (root search_path : String) : Nat :=
  sepCount (pyReplaceEmpty root search_path)

/-- Whether a path ends with the separator (the condition under which
os.path.join would not insert another one). -/
def endsSep (s : String) : Bool :=
  match s.data.getLast? with
  | some c => c == '/'
  | none => false

/-- The suffix a chain of child names contributes below a base directory:
one separator before each name. -/
def joinTail : List String → String
  | [] => ""
  | n :: rest => "/" ++ n ++ joinTail rest

/-- should_include_item from search_drive (filehandler.py:1421-1429): scope
check, case normalisation per the case_sensitive flag, then
fnmatch-or-substring.  The pattern normalisation happens once at
filehandler.py:1419; inlining it here is equivalent. -/
def should_include_item (searchType : String) (caseSensitive : Bool)
    (searchPattern : String) (itemName : String) (isDirectory : Bool) : Bool :=
  if searchType == "files" && isDirectory then false
  else if searchType == "folders" && !isDirectory then false
  else
    let pat := if caseSensitive then searchPattern else lowerStr searchPattern
    let checkName := if caseSensitive then itemName else lowerStr itemName
    globMatch pat.toList checkName.toList || containsSub pat.toList checkName.toList

/-- The inline match test of quick_search (filehandler.py:1331, 1345):
substring or fnmatch against the lowercased name, with the pattern already
lowercased by the caller. -/
def quickNameMatch (searchPattern : String) (itemName : String) : Bool :=
  containsSub searchPattern.toList (lowerStr itemName).toList ||
    globMatch searchPattern.toList (lowerStr itemName).toList

/-- One found item, the dict appended at filehandler.py:1458 and 1474
(and the corresponding places in quick_search).  Folder items carry no
size_bytes key, file items do. -/
structure FoundItem where
  name : String
  type : String
  path : String
  parent_directory : String
  size_bytes : Option Nat
deriving DecidableEq, Repr

/-- The configuration of one bounded walk.  search_drive and quick_search
share the traversal skeleton; every behavioural difference between the two
copies in the source is a field here.  quickStyle selects quick_search's
inline match test (which always lowercases) over should_include_item. -/
structure Params where
  pattern : String
  searchType : String
  maxResults : Int
  caseSensitive : Bool
  maxDepth : Int
  excluded : List String
  fileScanCap : Nat
  quickStyle : Bool

/-- The mutable loop state of one search call: the accumulated items, the
count variable (incremented alongside every append), whether the outer
loop has been broken out of, and the remaining clock budget.  A budget of
some n means the next n timeout checks report "not timed out" and every
later one reports a timeout; none means the deadline is never reached. -/
structure SState where
  found : List FoundItem
  count : Nat
  halted : Bool
  budget : Option Nat
deriving DecidableEq, Repr

/-- One reading of the elapsed-time test: returns whether the deadline has
passed, and the state with one budgeted reading consumed. -/
def readClock (s : SState) : Bool × SState :=
  match s.budget with
  | none => (false, s)
  | some 0 => (true, s)
  | some (n + 1) => (false, { s with budget := some n })

/-- Breaking out of the walk (both the result cap and the timeout stop all
further enumeration and emission). -/
def haltWalk (s : SState) : SState := { s with halted := true }

/-- Python startswith for the one-character hidden-name marker: the first
character is a dot. -/
def startsDot (n : String) : Bool :=
  match n.data with
  | [] => false
  | c :: _ => c == '.'

/-- The directory filter applied to dirs before recursion
(filehandler.py:1449 and 1325): drop excluded names and hidden names. -/
def keepName (excluded : List String) (n : String) : Bool :=
  !(excluded.contains n) && !(startsDot n)

/-- Names of the child directories that survive pruning, in listing order. -/
def childDirs (excluded : List String) (children : List FsNode) : List String :=
  children.filterMap (fun c =>
    match c with
    | FsNode.dir n _ => if keepName excluded n then some n else none
    | FsNode.file _ _ => none)

/-- Name and size of each child file, in listing order (files are not
filtered by the pruning step). -/
def childFiles (children : List FsNode) : List (String × Nat) :=
  children.filterMap (fun c =>
    match c with
    | FsNode.file n sz => some (n, sz)
    | FsNode.dir _ _ => none)

/-- The item appended for a match found in directory root. -/
def mkItem (root : String) (isDir : Bool) (n : String) (size : Option Nat) : FoundItem :=
  { name := n
    type := if isDir then "folder" else "file"
    path := root ++ "/" ++ n
    parent_directory := root
    size_bytes := size }

/-- The per-candidate match predicate of the selected tool. -/
def includeItem (P : Params) (isDir : Bool) (n : String) : Bool :=
  if P.quickStyle then quickNameMatch P.pattern n
  else should_include_item P.searchType P.caseSensitive P.pattern n isDir

/-- One loop iteration over a candidate name: the per-item cap check, the
per-item timeout check (short-circuited after the cap check, as in
`count >= max_results or time.time() - start_time > timeout`), then the
match test and emission.  Once the loop has been broken out of, remaining
candidates are skipped. -/
def emitOne (P : Params) (root : String) (isDir : Bool) (n : String)
    (size : Option Nat) (s : SState) : SState :=
  if s.halted then s
  else if (s.count : Int) ≥ P.maxResults then haltWalk s
  else if (readClock s).1 then haltWalk (readClock s).2
  else if includeItem P isDir n then
    { (readClock s).2 with
      found := (readClock s).2.found ++ [mkItem root isDir n size],
      count := (readClock s).2.count + 1 }
  else (readClock s).2

/-- The folders loop (filehandler.py:1452-1464), over the pruned names. -/
def emitFolders (P : Params) (root : String) (names : List String) (s : SState) : SState :=
  names.foldl (fun s n => emitOne P root true n none s) s

/-- The files loop (filehandler.py:1466-1483), over the capped file list. -/
def emitFiles (P : Params) (root : String) (entries : List (String × Nat)) (s : SState) : SState :=
  entries.foldl (fun s e => emitOne P root false e.1 (some e.2) s) s

/-- Guarded folders loop: only when the scope includes folders. -/
def emitFoldersGuard (P : Params) (root : String) (children : List FsNode) (s : SState) : SState :=
  if P.searchType == "folders" || P.searchType == "both" then
    emitFolders P root (childDirs P.excluded children) s
  else s

/-- Guarded files loop: only when the scope includes files, over at most
fileScanCap entries. -/
def emitFilesGuard (P : Params) (root : String) (children : List FsNode) (s : SState) : SState :=
  if P.searchType == "files" || P.searchType == "both" then
    emitFiles P root ((childFiles children).take P.fileScanCap) s
  else s

/-- A pending piece of the os.walk traversal: processing one directory as
a walk root, or recursing through a list of its children. -/
inductive WalkTask where
  | node (root : String) (children : List FsNode)
  | sibs (root : String) (nodes : List FsNode)

/-- The top-down os.walk loop of search_drive (filehandler.py:1437-1486),
fuel-bounded so that the recursion is structural; any fuel larger than the
number of tree nodes yields the complete traversal, and the invariants
proved below hold for every fuel.  A node is entered with the timeout
check and the cap check of the outer loop (both break the whole walk),
then the depth guard computed exactly as the source computes it from the
root string and the search path base (current_depth; the guard clears dirs
and continues, so it neither emits nor recurses), then pruning, the two
emission loops, and recursion into the pruned child directories in order.
Joined paths insert one separator (os.path.join inserts none after a
separator-terminated root; that collapsing is not modelled, and the
clean-base depth statements below therefore carry the program-level
condition that the base is not separator-terminated). -/
def walk (P : Params) (base : String) : Nat → WalkTask → SState → SState
  | 0, _, s => s
  | fuel + 1, WalkTask.node root children, s =>
    if s.halted then s
    else if (readClock s).1 then haltWalk (readClock s).2
    else if ((readClock s).2.count : Int) ≥ P.maxResults then haltWalk (readClock s).2
    else if (current_depth root base : Int) ≥ P.maxDepth then (readClock s).2
    else
      walk P base fuel (WalkTask.sibs root children)
        (emitFilesGuard P root children (emitFoldersGuard P root children (readClock s).2))
  | _ + 1, WalkTask.sibs _ [], s => s
  | fuel + 1, WalkTask.sibs root (c :: rest), s =>
    match c with
    | FsNode.file _ _ => walk P base fuel (WalkTask.sibs root rest) s
    | FsNode.dir n cs =>
      if keepName P.excluded n then
        walk P base fuel (WalkTask.sibs root rest)
          (walk P base fuel (WalkTask.node (root ++ "/" ++ n) cs) s)
      else
        walk P base fuel (WalkTask.sibs root rest) s

/-- Output schema DriveSearchOutput (filehandler.py:77-84).  The failure
constructor leaves the pydantic defaults: empty items, zero count, search
type "both", no search path. -/
structure DriveSearchOutput where
  success : Bool
  message : String
  found_items : List FoundItem
  total_count : Nat
  search_type : String
  search_path : Option String
deriving DecidableEq, Repr

/-- skip_dirs of search_drive (filehandler.py:1431-1435). -/
def skipDirs : List String :=
  ["System Volume Information", "$Recycle.Bin", "Windows", "Program Files",
   "Program Files (x86)", "AppData", "ProgramData", "Recovery", "pagefile.sys",
   "hiberfil.sys", "swapfile.sys", ".git", "node_modules", "__pycache__"]

/-- The fresh loop state of one search invocation. -/
def initState (budget : Option Nat) : SState :=
  { found := [], count := 0, halted := false, budget := budget }

/-- search_drive (filehandler.py:1385-1512).  The filesystem under the
search path is passed explicitly: none when the path does not exist, some
children when it is a directory with that listing.  budget is the clock
model described at readClock, fuel the recursion bound described at walk.
The numeric elapsed seconds in messages are omitted (wall time is not
modelled); no claim inspects success-path message text. -/
def search_drive (search_pattern search_path search_type : String)
    (max_results : Int) (case_sensitive : Bool) (max_depth : Int)
    (fs : Option (List FsNode)) (budget : Option Nat) (fuel : Nat) : DriveSearchOutput :=
  match fs with
  | none =>
    { success := false
      message := "Search path " ++ search_path ++ " does not exist"
      found_items := []
      total_count := 0
      search_type := "both"
      search_path := none }
  | some children =>
    let P : Params :=
      { pattern := search_pattern, searchType := search_type,
        maxResults := max_results, caseSensitive := case_sensitive,
        maxDepth := max_depth, excluded := skipDirs, fileScanCap := 100,
        quickStyle := false }
    let st := walk P search_path fuel (WalkTask.node search_path children) (initState budget)
    { success := true
      message :=
        if st.found.isEmpty then
          "No items found matching " ++ search_pattern
        else if (st.count : Int) ≥ max_results then
          "Found " ++ toString st.count ++ " items matching " ++ search_pattern ++
            " (limited to " ++ toString max_results ++ " results)"
        else
          "Found " ++ toString st.count ++ " items matching " ++ search_pattern
      found_items := st.found
      total_count := st.count
      search_type := search_type
      search_path := some search_path }

/-- One step of quick_search's loop over its candidate search paths
(filehandler.py:1308-1361): skip paths that do not exist, break the loop
once the cap is reached, otherwise walk that root. -/
def quickStep (P : Params) (fuel : Nat) (s : SState)
    (r : String × Option (List FsNode)) : SState :=
  match r.2 with
  | none => s
  | some children =>
    if s.halted then s
    else if (s.count : Int) ≥ P.maxResults then haltWalk s
    else walk P r.1 fuel (WalkTask.node r.1 children) s

/-- quick_search (filehandler.py:1272-1383): the fixed-depth (2),
always-lowercased, 50-files-per-directory variant over a list of candidate
roots, with no wall-clock timeout. -/
def quick_search (search_pattern search_type : String) (max_results : Int)
    (roots : List (String × Option (List FsNode))) (fuel : Nat) : DriveSearchOutput :=
  let P : Params :=
    { pattern := lowerStr search_pattern, searchType := search_type,
      maxResults := max_results, caseSensitive := false, maxDepth := 2,
      excluded := ["__pycache__", "node_modules"], fileScanCap := 50,
      quickStyle := true }
  let st := roots.foldl (quickStep P fuel) (initState none)
  { success := true
    message :=
      if st.found.isEmpty then "No items found in common directories"
      else "Quick search found " ++ toString st.count ++ " items"
    found_items := st.found
    total_count := st.count
    search_type := search_type
    search_path := some "Common user directories" }

/-- Whether a search_drive run finished without exhausting its clock
budget: true when, at the end of the walk, at least one more timeout check
would still have reported "not timed out" (or the deadline was never
reachable, or the search path did not exist).  A run whose budget ended at
zero had its timeout fire (or was about to); every other run behaves
exactly like a run with no deadline. -/
def searchNotTimedOut (search_pattern search_path search_type : String)
    (max_results : Int) (case_sensitive : Bool) (max_depth : Int)
    (fs : Option (List FsNode)) (budget : Option Nat) (fuel : Nat) : Bool :=
  match fs with
  | none => true
  | some children =>
    let P : Params :=
      { pattern := search_pattern, searchType := search_type,
        maxResults := max_results, caseSensitive := case_sensitive,
        maxDepth := max_depth, excluded := skipDirs, fileScanCap := 100,
        quickStyle := false }
    match (walk P search_path fuel (WalkTask.node search_path children) (initState budget)).budget with
    | some 0 => false
    | _ => true

/-- The simulation relation between a budgeted run and the clock-free
reference run: the observable components agree, the right state carries no
deadline and the left state carries some remaining budget. -/
def SimR (s t : SState) : Prop :=
  s.found = t.found ∧ s.count = t.count ∧ s.halted = t.halted ∧
    t.budget = none ∧ ∃ k, s.budget = some k

/-- One hashed file record, as accumulated into file_hashes
(filehandler.py:345-370): path, name, size, and the content digest.  The
digest string abstracts hashlib.md5 of the file bytes; the server treats
equal digests as identical content. -/
structure DupRec where
  path : String
  name : String
  size : Nat
  hash : String
deriving DecidableEq, Repr

/-- One reported duplicate group (filehandler.py:382-387). -/
structure DupGroup where
  hash : String
  files : List DupRec
  count : Nat
  size_each : Nat
deriving DecidableEq, Repr

/-- Output schema DuplicateFinderOutput (filehandler.py:118-123). -/
structure DuplicateFinderOutput where
  success : Bool
  message : String
  duplicate_groups : List DupGroup
  total_duplicates : Nat
  space_wasted : Nat
deriving DecidableEq, Repr

/-- The 100 MB hashing ceiling (filehandler.py:351). -/
def sizeLimit : Nat := 100 * 1024 * 1024

/-- Records that actually get hashed: files above the ceiling are skipped. -/
def eligible (rs : List DupRec) : List DupRec :=
  rs.filter (fun r => decide (r.size ≤ sizeLimit))

/-- The distinct hashes in first-occurrence order: the key order of the
insertion-ordered dict file_hashes. -/
def hashKeys : List DupRec → List String
  | [] => []
  | r :: rs => r.hash :: (hashKeys rs).filter (fun h => h != r.hash)

/-- The records stored under one hash key, in insertion order. -/
def groupOf (rs : List DupRec) (h : String) : List DupRec :=
  rs.filter (fun r => r.hash == h)

/-- The duplicate-group pass (filehandler.py:380-389): every hash with at
least two records becomes a group carrying the records, their number and
the size of the first one. -/
def duplicate_groups (rs : List DupRec) : List DupGroup :=
  (hashKeys rs).filterMap (fun h =>
    let files := groupOf rs h
    if files.length > 1 then
      some { hash := h, files := files, count := files.length,
             size_each := (files.headD { path := "", name := "", size := 0, hash := h }).size }
    else none)

/-- find_duplicates (filehandler.py:320-408).  The walk-and-hash phase is
abstracted into the record list: fs is none when the directory does not
exist, some rs when hashing the reachable files yields the records rs. -/
def find_duplicates (fs : Option (List DupRec)) (directory : String) : DuplicateFinderOutput :=
  match fs with
  | none =>
    { success := false
      message := "Directory " ++ directory ++ " does not exist"
      duplicate_groups := []
      total_duplicates := 0
      space_wasted := 0 }
  | some rs =>
    let gs := duplicate_groups (eligible rs)
    { success := true
      message :=
        if gs.isEmpty then "No duplicate files found in " ++ directory
        else "Found " ++ toString gs.length ++ " groups of duplicates"
      duplicate_groups := gs
      total_duplicates := (gs.map (fun g => g.count - 1)).sum
      space_wasted := (gs.map (fun g => (g.count - 1) * g.size_each)).sum }

/-- Output schema DirectoryOutput (filehandler.py:32-35). -/
structure DirectoryOutput where
  success : Bool
  message : String
  directory_path : Option String
deriving DecidableEq, Repr

/-- What the remove_directory target path currently names: nothing, a
file, or a directory with the given entries. -/
inductive DirEntry where
  | fileEntry
  | dirEntry (entries : List String)
deriving DecidableEq, Repr

/-- remove_directory (filehandler.py:799-826): the checks in source order
(exists, is a directory, is empty) and the rmdir call.  The second
component is the state of the target after the call (none once removed). -/
def remove_directory (directory_path : String) (target : Option DirEntry) :
    DirectoryOutput × Option DirEntry :=
  match target with
  | none =>
    ({ success := false
       message := "Directory " ++ directory_path ++ " does not exist"
       directory_path := none }, none)
  | some DirEntry.fileEntry =>
    ({ success := false
       message := directory_path ++ " is not a directory"
       directory_path := none }, some DirEntry.fileEntry)
  | some (DirEntry.dirEntry entries) =>
    if entries.isEmpty then
      ({ success := true
         message := "Directory removed successfully: " ++ directory_path
         directory_path := some directory_path }, none)
    else
      ({ success := false
         message := "Directory " ++ directory_path ++ " is not empty"
         directory_path := none }, some (DirEntry.dirEntry entries))

/-- Output schema FileWriterOutput (filehandler.py:20-24). -/
structure FileWriterOutput where
  success : Bool
  message : String
  file_path : Option String
  operation : Option String
deriving DecidableEq, Repr

/-- write_file (filehandler.py:727-774).  existing is the current content
of the target file, none when the file does not exist.  The second
component is the content of the file after the call. -/
def write_file (file_path : String) (content : String) (append : Bool)
    (existing : Option String) : FileWriterOutput × Option String :=
  if file_path = "" then
    ({ success := false, message := "No file path provided",
       file_path := none, operation := none }, existing)
  else
    match existing with
    | some old =>
      if append then
        ({ success := true
           message := "Content appended to existing file " ++ file_path
           file_path := some file_path
           operation := some "appended" }, some (old ++ "\n" ++ content))
      else
        ({ success := true
           message := "Content written to existing file " ++ file_path ++ " (overwritten)"
           file_path := some file_path
           operation := some "overwritten" }, some content)
    | none =>
      ({ success := true
         message := "New file created and content written to " ++ file_path
         file_path := some file_path
         operation := some "created" }, some content)

/-- What the list_files argument currently names. -/
inductive ListTarget where
  | fileTarget
  | dirTarget (names : List String)
deriving DecidableEq, Repr

/-- list_files (filehandler.py:696-711): returns a bare string in every
branch (a listing sentence or an error sentence), not a schema object. -/
def list_files (directory : String) (target : Option ListTarget) : String :=
  match target with
  | some ListTarget.fileTarget => directory ++ " is a file, not a directory."
  | none => "Directory " ++ directory ++ " does not exist."
  | some (ListTarget.dirTarget names) =>
    "Files in " ++ directory ++ ": " ++ String.intercalate ", " names

/-- read_file (filehandler.py:713-725): returns the raw file content, or
an error sentence when reading fails; again a bare string. -/
def read_file (file_path : String) (contents : Option String) : String :=
  match contents with
  | some c => c
  | none => "Error reading file " ++ file_path

/-- The JSON values a tool can hand back across the tool boundary. -/
inductive Json where
  | null
  | jbool (b : Bool)
  | jnum (n : Int)
  | jstr (s : String)
  | jarr (xs : List Json)
  | jobj (fields : List (String × Json))

/-- First field with the given key, if any. -/
def jlookup (fields : List (String × Json)) (key : String) : Option Json :=
  match fields with
  | [] => none
  | (k, v) :: rest => if k == key then some v else jlookup rest key

/-- The structural minimum the external-interface section demands of a
tool result: a JSON object with a boolean success field and a string
message field. -/
def isStructured (j : Json) : Bool :=
  match j with
  | Json.jobj fields =>
    (match jlookup fields "success" with
     | some (Json.jbool _) => true
     | _ => false) &&
    (match jlookup fields "message" with
     | some (Json.jstr _) => true
     | _ => false)
  | _ => false

/-- Serialisation of one found item. -/
def itemJson (it : FoundItem) : Json :=
  Json.jobj
    ([("name", Json.jstr it.name), ("type", Json.jstr it.type),
      ("path", Json.jstr it.path), ("parent_directory", Json.jstr it.parent_directory)] ++
      (match it.size_bytes with
       | some n => [("size_bytes", Json.jnum n)]
       | none => []))

/-- Serialisation of a DriveSearchOutput. -/
def driveOutputJson (o : DriveSearchOutput) : Json :=
  Json.jobj
    [("success", Json.jbool o.success), ("message", Json.jstr o.message),
     ("found_items", Json.jarr (o.found_items.map itemJson)),
     ("total_count", Json.jnum o.total_count),
     ("search_type", Json.jstr o.search_type),
     ("search_path", match o.search_path with | some p => Json.jstr p | none => Json.null)]

/-- Serialisation of one duplicate group. -/
def dupGroupJson (g : DupGroup) : Json :=
  Json.jobj
    [("hash", Json.jstr g.hash),
     ("files", Json.jarr (g.files.map (fun r =>
       Json.jobj [("path", Json.jstr r.path), ("name", Json.jstr r.name),
                  ("size", Json.jnum r.size)]))),
     ("count", Json.jnum g.count), ("size_each", Json.jnum g.size_each)]

/-- Serialisation of a DuplicateFinderOutput. -/
def dupOutputJson (o : DuplicateFinderOutput) : Json :=
  Json.jobj
    [("success", Json.jbool o.success), ("message", Json.jstr o.message),
     ("duplicate_groups", Json.jarr (o.duplicate_groups.map dupGroupJson)),
     ("total_duplicates", Json.jnum o.total_duplicates),
     ("space_wasted", Json.jnum o.space_wasted)]

/-- Serialisation of a DirectoryOutput. -/
def directoryOutputJson (o : DirectoryOutput) : Json :=
  Json.jobj
    [("success", Json.jbool o.success), ("message", Json.jstr o.message),
     ("directory_path", match o.directory_path with | some p => Json.jstr p | none => Json.null)]

/-- Serialisation of a FileWriterOutput. -/
def writerOutputJson (o : FileWriterOutput) : Json :=
  Json.jobj
    [("success", Json.jbool o.success), ("message", Json.jstr o.message),
     ("file_path", match o.file_path with | some p => Json.jstr p | none => Json.null),
     ("operation", match o.operation with | some p => Json.jstr p | none => Json.null)]

/-- What crosses the tool boundary for list_files: the bare string. -/
def list_files_result (directory : String) (target : Option ListTarget) : Json :=
  Json.jstr (list_files directory target)

/-- What crosses the tool boundary for read_file: the bare string. -/
def read_file_result (file_path : String) (contents : Option String) : Json :=
  Json.jstr (read_file file_path contents)

/-- Joining a base directory with a chain of child names, one path
separator each: the shape of every path the walk constructs. -/
def joinAll (base : String) (parts : List String) : String :=
  parts.foldl (fun acc n => acc ++ "/" ++ n) base

/-- What the walk guarantees of every item it appends when started at
base: the parent directory is base extended by a chain of pruned child
names and its source-computed depth lies strictly below maxDepth; the item
path is parent/name; a folder item's own name also survived pruning; the
kind tag is one of the two literals. -/
def EmittedSpec (P : Params) (base : String) (it : FoundItem) : Prop :=
  ∃ parts : List String,
    it.parent_directory = joinAll base parts ∧
    it.path = it.parent_directory ++ "/" ++ it.name ∧
    ((current_depth it.parent_directory base : Int) < P.maxDepth) ∧
    (∀ n ∈ parts, keepName P.excluded n = true) ∧
    (it.type = "folder" → keepName P.excluded it.name = true) ∧
    (it.type = "folder" ∨ it.type = "file")

/-- Precondition on a walk root: it is the base extended by pruned child
names. -/
def RootPre (P : Params) (base : String) (root : String) : Prop :=
  ∃ parts : List String,
    root = joinAll base parts ∧
    ∀ n ∈ parts, keepName P.excluded n = true

/-- The precondition for a pending walk task. -/
def taskPre (P : Params) (base : String) : WalkTask → Prop
  | WalkTask.node root _ => RootPre P base root
  | WalkTask.sibs root _ => RootPre P base root

@[simp] theorem readClock_snd_found (s : SState) : (readClock s).2.found = s.found := by
  rcases s with ⟨f, c, hl, b⟩
  cases b with
  | none => rfl
  | some n => cases n <;> rfl

@[simp] theorem readClock_snd_count (s : SState) : (readClock s).2.count = s.count := by
  rcases s with ⟨f, c, hl, b⟩
  cases b with
  | none => rfl
  | some n => cases n <;> rfl

@[simp] theorem readClock_snd_halted (s : SState) : (readClock s).2.halted = s.halted := by
  rcases s with ⟨f, c, hl, b⟩
  cases b with
  | none => rfl
  | some n => cases n <;> rfl

@[simp] theorem haltWalk_found (s : SState) : (haltWalk s).found = s.found := rfl

@[simp] theorem haltWalk_count (s : SState) : (haltWalk s).count = s.count := rfl

theorem emitOne_mem (P : Params) (root : String) (isDir : Bool) (n : String)
    (size : Option Nat) (s : SState) :
    ∀ it ∈ (emitOne P root isDir n size s).found,
      it ∈ s.found ∨ it = mkItem root isDir n size := by
  intro it hit
  unfold emitOne at hit
  split at hit
  · exact Or.inl hit
  · split at hit
    · exact Or.inl (by simpa using hit)
    · split at hit
      · exact Or.inl (by simpa using hit)
      · split at hit
        · simp only [readClock_snd_found, List.mem_append, List.mem_singleton] at hit
          rcases hit with h | h
          · exact Or.inl h
          · exact Or.inr h
        · exact Or.inl (by simpa using hit)

theorem emitOne_count_len (P : Params) (root : String) (isDir : Bool) (n : String)
    (size : Option Nat) (s : SState) (h : s.count = s.found.length) :
    (emitOne P root isDir n size s).count = (emitOne P root isDir n size s).found.length := by
  unfold emitOne
  split
  · exact h
  · split
    · simpa using h
    · split
      · simpa using h
      · split
        · simp [h]
        · simpa using h

theorem emitOne_cap (P : Params) (root : String) (isDir : Bool) (n : String)
    (size : Option Nat) (s : SState) (h : (s.count : Int) ≤ P.maxResults) :
    ((emitOne P root isDir n size s).count : Int) ≤ P.maxResults := by
  unfold emitOne
  split
  · exact h
  · split
    · simpa using h
    · split
      · simpa using h
      · rename_i hcap _
        split
        · simp only [readClock_snd_count]
          push_cast
          omega
        · simpa using h

theorem foldl_pres {α : Type} (f : SState → α → SState) (Q : SState → Prop)
    (hf : ∀ s a, Q s → Q (f s a)) :
    ∀ (l : List α) (s : SState), Q s → Q (l.foldl f s) := by
  intro l
  induction l with
  | nil => intro s h; simpa using h
  | cons a l ih => intro s h; exact ih _ (hf s a h)

theorem foldl_mem {α : Type} (f : SState → α → SState) (R : α → FoundItem → Prop)
    (hf : ∀ s a, ∀ it ∈ (f s a).found, it ∈ s.found ∨ R a it) :
    ∀ (l : List α) (s : SState), ∀ it ∈ (l.foldl f s).found,
      it ∈ s.found ∨ ∃ a ∈ l, R a it := by
  intro l
  induction l with
  | nil => intro s it hit; exact Or.inl (by simpa using hit)
  | cons a l ih =>
    intro s it hit
    rcases ih (f s a) it hit with h | ⟨a2, ha2, hR⟩
    · rcases hf s a it h with h2 | h2
      · exact Or.inl h2
      · exact Or.inr ⟨a, List.mem_cons_self a l, h2⟩
    · exact Or.inr ⟨a2, List.mem_cons_of_mem a ha2, hR⟩

theorem emitFoldersGuard_mem (P : Params) (root : String) (children : List FsNode)
    (s : SState) :
    ∀ it ∈ (emitFoldersGuard P root children s).found,
      it ∈ s.found ∨ ∃ n ∈ childDirs P.excluded children, it = mkItem root true n none := by
  intro it hit
  unfold emitFoldersGuard at hit
  split at hit
  · exact foldl_mem _ (fun n it => it = mkItem root true n none)
      (fun s n => emitOne_mem P root true n none s) _ s it hit
  · exact Or.inl hit

theorem emitFilesGuard_mem (P : Params) (root : String) (children : List FsNode)
    (s : SState) :
    ∀ it ∈ (emitFilesGuard P root children s).found,
      it ∈ s.found ∨ ∃ e ∈ (childFiles children).take P.fileScanCap,
        it = mkItem root false e.1 (some e.2) := by
  intro it hit
  unfold emitFilesGuard at hit
  split at hit
  · exact foldl_mem _ (fun e it => it = mkItem root false e.1 (some e.2))
      (fun s e => emitOne_mem P root false e.1 (some e.2) s) _ s it hit
  · exact Or.inl hit

theorem emitFoldersGuard_count_len (P : Params) (root : String) (children : List FsNode)
    (s : SState) (h : s.count = s.found.length) :
    (emitFoldersGuard P root children s).count = (emitFoldersGuard P root children s).found.length := by
  unfold emitFoldersGuard
  split
  · exact foldl_pres _ (fun t => t.count = t.found.length)
      (fun t n ht => emitOne_count_len P root true n none t ht) _ s h
  · exact h

theorem emitFilesGuard_count_len (P : Params) (root : String) (children : List FsNode)
    (s : SState) (h : s.count = s.found.length) :
    (emitFilesGuard P root children s).count = (emitFilesGuard P root children s).found.length := by
  unfold emitFilesGuard
  split
  · exact foldl_pres _ (fun t => t.count = t.found.length)
      (fun t e ht => emitOne_count_len P root false e.1 (some e.2) t ht) _ s h
  · exact h

theorem emitFoldersGuard_cap (P : Params) (root : String) (children : List FsNode)
    (s : SState) (h : (s.count : Int) ≤ P.maxResults) :
    ((emitFoldersGuard P root children s).count : Int) ≤ P.maxResults := by
  unfold emitFoldersGuard
  split
  · exact foldl_pres _ (fun t => (t.count : Int) ≤ P.maxResults)
      (fun t n ht => emitOne_cap P root true n none t ht) _ s h
  · exact h

theorem emitFilesGuard_cap (P : Params) (root : String) (children : List FsNode)
    (s : SState) (h : (s.count : Int) ≤ P.maxResults) :
    ((emitFilesGuard P root children s).count : Int) ≤ P.maxResults := by
  unfold emitFilesGuard
  split
  · exact foldl_pres _ (fun t => (t.count : Int) ≤ P.maxResults)
      (fun t e ht => emitOne_cap P root false e.1 (some e.2) t ht) _ s h
  · exact h

theorem childDirs_keep (ex : List String) (children : List FsNode) :
    ∀ n ∈ childDirs ex children, keepName ex n = true := by
  intro n hn
  simp only [childDirs, List.mem_filterMap] at hn
  obtain ⟨c, _, hfc⟩ := hn
  cases c with
  | file _ _ => simp at hfc
  | dir m cs =>
    by_cases h : keepName ex m
    · simp only [h, if_true, Option.some.injEq] at hfc
      subst hfc
      exact h
    · simp [h] at hfc

theorem joinAll_append (base : String) (parts : List String) (n : String) :
    joinAll base (parts ++ [n]) = joinAll base parts ++ "/" ++ n := by
  simp [joinAll, List.foldl_append]

/-- The three walk invariants, by induction on the fuel: every item in the
final state was already present or satisfies EmittedSpec; the count equals
the item-list length whenever it did initially; the count stays at or
below maxResults whenever it started there. -/
theorem walk_master (P : Params) (base : String) :
    ∀ (fuel : Nat) (task : WalkTask) (s : SState), taskPre P base task →
      (∀ it ∈ (walk P base fuel task s).found, it ∈ s.found ∨ EmittedSpec P base it) ∧
      (s.count = s.found.length →
        (walk P base fuel task s).count = (walk P base fuel task s).found.length) ∧
      ((s.count : Int) ≤ P.maxResults →
        ((walk P base fuel task s).count : Int) ≤ P.maxResults) := by
  intro fuel
  induction fuel with
  | zero =>
    intro task s _
    exact ⟨fun it hit => Or.inl (by simpa [walk] using hit),
           fun h => by simpa [walk] using h,
           fun h => by simpa [walk] using h⟩
  | succ fuel ih =>
    intro task s hpre
    cases task with
    | node root children =>
      simp only [walk]
      split
      · exact ⟨fun it hit => Or.inl hit, fun h => h, fun h => h⟩
      · split
        · exact ⟨fun it hit => Or.inl (by simpa using hit),
                 fun h => by simpa using h, fun h => by simpa using h⟩
        · split
          · exact ⟨fun it hit => Or.inl (by simpa using hit),
                   fun h => by simpa using h, fun h => by simpa using h⟩
          · split
            · exact ⟨fun it hit => Or.inl (by simpa using hit),
                     fun h => by simpa using h, fun h => by simpa using h⟩
            · rename_i hhalt hclock hcap hdepth
              obtain ⟨hmem, hlen, hcap2⟩ := ih (WalkTask.sibs root children)
                (emitFilesGuard P root children (emitFoldersGuard P root children (readClock s).2))
                hpre
              refine ⟨?_, ?_, ?_⟩
              · intro it hit
                rcases hmem it hit with h | hspec
                · rcases emitFilesGuard_mem P root children _ it h with h2 | ⟨e, _, heq⟩
                  · rcases emitFoldersGuard_mem P root children _ it h2 with h3 | ⟨n, hn, heq⟩
                    · exact Or.inl (by simpa using h3)
                    · right
                      obtain ⟨parts, hroot, hkeep⟩ := hpre
                      subst heq
                      refine ⟨parts, by simpa [mkItem] using hroot, rfl, ?_, hkeep,
                              fun _ => childDirs_keep P.excluded children n hn, Or.inl rfl⟩
                      show (current_depth root base : Int) < P.maxDepth
                      omega
                  · right
                    obtain ⟨parts, hroot, hkeep⟩ := hpre
                    subst heq
                    refine ⟨parts, by simpa [mkItem] using hroot, rfl, ?_, hkeep,
                            fun h => absurd h (by simp [mkItem]), Or.inr rfl⟩
                    show (current_depth root base : Int) < P.maxDepth
                    omega
                · exact Or.inr hspec
              · intro h
                exact hlen (emitFilesGuard_count_len P root children _
                  (emitFoldersGuard_count_len P root children _ (by simpa using h)))
              · intro h
                exact hcap2 (emitFilesGuard_cap P root children _
                  (emitFoldersGuard_cap P root children _ (by simpa using h)))
    | sibs root nodes =>
      cases nodes with
      | nil =>
        simp only [walk]
        exact ⟨fun it hit => Or.inl hit, fun h => h, fun h => h⟩
      | cons c rest =>
        cases c with
        | file fn fsz =>
          simp only [walk]
          exact ih (WalkTask.sibs root rest) s hpre
        | dir n cs =>
          simp only [walk]
          split
          · rename_i hkn
            have hpreNode : taskPre P base (WalkTask.node (root ++ "/" ++ n) cs) := by
              obtain ⟨parts, hroot, hkeep⟩ := hpre
              refine ⟨parts ++ [n], by rw [joinAll_append, hroot], ?_⟩
              intro m hm
              rcases List.mem_append.mp hm with h | h
              · exact hkeep m h
              · simp only [List.mem_singleton] at h
                subst h
                exact hkn
            obtain ⟨imem, ilen, icap⟩ := ih _ _ hpreNode
            obtain ⟨rmem, rlen, rcap⟩ := ih (WalkTask.sibs root rest)
              (walk P base fuel (WalkTask.node (root ++ "/" ++ n) cs) s) hpre
            refine ⟨?_, fun h => rlen (ilen h), fun h => rcap (icap h)⟩
            intro it hit
            rcases rmem it hit with h | hspec
            · exact imem it h
            · exact Or.inr hspec
          · exact ih (WalkTask.sibs root rest) s hpre

/-- The same three invariants for one step of quick_search's loop over its
candidate search paths. -/
theorem quickStep_master (P : Params) (fuel : Nat)
    (r : String × Option (List FsNode)) (s : SState) :
    (∀ it ∈ (quickStep P fuel s r).found, it ∈ s.found ∨ EmittedSpec P r.1 it) ∧
    (s.count = s.found.length →
      (quickStep P fuel s r).count = (quickStep P fuel s r).found.length) ∧
    ((s.count : Int) ≤ P.maxResults →
      ((quickStep P fuel s r).count : Int) ≤ P.maxResults) := by
  rcases r with ⟨rname, fs⟩
  cases fs with
  | none => exact ⟨fun it hit => Or.inl hit, fun h => h, fun h => h⟩
  | some children =>
    unfold quickStep
    simp only
    split
    · exact ⟨fun it hit => Or.inl hit, fun h => h, fun h => h⟩
    · split
      · exact ⟨fun it hit => Or.inl (by simpa using hit),
               fun h => by simpa using h, fun h => by simpa using h⟩
      · have hpre : taskPre P rname (WalkTask.node rname children) :=
          ⟨[], rfl, by simp⟩
        exact (walk_master P rname fuel (WalkTask.node rname children) s hpre)

/-- The invariants carried through quick_search's whole loop: every final
item was initially present or was emitted below one of the roots. -/
theorem quickFold_master (P : Params) (fuel : Nat) :
    ∀ (roots : List (String × Option (List FsNode))) (s : SState),
      (∀ it ∈ (roots.foldl (quickStep P fuel) s).found,
        it ∈ s.found ∨ ∃ r ∈ roots, EmittedSpec P r.1 it) ∧
      (s.count = s.found.length →
        (roots.foldl (quickStep P fuel) s).count =
          (roots.foldl (quickStep P fuel) s).found.length) ∧
      ((s.count : Int) ≤ P.maxResults →
        ((roots.foldl (quickStep P fuel) s).count : Int) ≤ P.maxResults) := by
  intro roots
  induction roots with
  | nil =>
    intro s
    exact ⟨fun it hit => Or.inl (by simpa using hit),
           fun h => by simpa using h, fun h => by simpa using h⟩
  | cons r rest ih =>
    intro s
    obtain ⟨smem, slen, scap⟩ := quickStep_master P fuel r s
    obtain ⟨rmem, rlen, rcap⟩ := ih (quickStep P fuel s r)
    simp only [List.foldl_cons]
    refine ⟨?_, fun h => rlen (slen h), fun h => rcap (scap h)⟩
    intro it hit
    rcases rmem it hit with h | ⟨r2, hr2, hspec⟩
    · rcases smem it h with h2 | h2
      · exact Or.inl h2
      · exact Or.inr ⟨r, List.mem_cons_self r rest, h2⟩
    · exact Or.inr ⟨r2, List.mem_cons_of_mem r hr2, hspec⟩

theorem globToksAux_no_bracket :
    ∀ (fuel : Nat) (p : List Char), p.length ≤ fuel → p.contains '[' = false →
      globToksAux fuel p = p.map charTok := by
  intro fuel
  induction fuel with
  | zero =>
    intro p hlen _
    have hp : p = [] := List.eq_nil_of_length_eq_zero (Nat.le_zero.mp hlen)
    subst hp
    rfl
  | succ fuel ih =>
    intro p hlen hc
    cases p with
    | nil => rfl
    | cons c rest =>
      have hcc : ('[' == c) = false ∧ rest.contains '[' = false := by
        simpa only [List.contains_cons, Bool.or_eq_false_iff] using hc
      have h3 : ¬ c = '[' := by
        intro h
        subst h
        simp at hcc
      have hlen2 : rest.length ≤ fuel := by
        simp only [List.length_cons] at hlen
        omega
      have hrec := ih rest hlen2 hcc.2
      by_cases h1 : c = '*'
      · simp [globToksAux, charTok, h1, hrec]
      · by_cases h2 : c = '?'
        · simp [globToksAux, charTok, h1, h2, hrec]
        · simp [globToksAux, charTok, h1, h2, h3, hrec]

theorem tokMatch_map_eq_starq :
    ∀ (p : List Char) (s : List Char),
      tokMatch (p.map charTok) s = globStarQ p s := by
  intro p
  induction p with
  | nil => intro s; rfl
  | cons c ps ih =>
    intro s
    rw [List.map_cons]
    by_cases h1 : c = '*'
    · subst h1
      rw [show charTok '*' = GlobTok.star from rfl]
      simp only [tokMatch, globStarQ, ih]
    · by_cases h2 : c = '?'
      · subst h2
        rw [show charTok '?' = GlobTok.qmark from rfl]
        cases s with
        | nil => rfl
        | cons d s2 =>
          show tokMatch (List.map charTok ps) s2 = globStarQ ps s2
          exact ih s2
      · rw [show charTok c = GlobTok.lit c from by simp [charTok, h1, h2]]
        cases s with
        | nil =>
          show false = globStarQ (c :: ps) []
          simp [globStarQ, h1, h2]
        | cons d s2 =>
          show (c == d && tokMatch (List.map charTok ps) s2) = globStarQ (c :: ps) (d :: s2)
          simp [globStarQ, h1, h2, ih]

/-- On a bracket-free pattern fnmatch degenerates to the star-and-question
glob the spec describes. -/
theorem globMatch_no_bracket (p s : List Char) (h : p.contains '[' = false) :
    globMatch p s = globStarQ p s := by
  show tokMatch (globToksAux p.length p) s = globStarQ p s
  rw [globToksAux_no_bracket p.length p (le_refl _) h]
  exact tokMatch_map_eq_starq p s

/-- Counterexample to claim C4: the source tests fnmatch, whose pattern
language also has bracketed character classes, not only the star and
question-mark wildcards the claim names.  The pattern [ab] matches the
name a through its class, while it is neither a substring of a nor a match
under the star-and-question reading, so the claimed iff fails. -/
theorem c4_counterexample :
    should_include_item "both" false "[ab]" "a" false = true ∧
    (containsSub "[ab]".toList "a".toList ||
      globStarQ "[ab]".toList "a".toList) = false := by
  exact ⟨by decide, by decide⟩

/-- Claim C4 (amended): the match predicate normalises case per the
case_sensitive flag and succeeds exactly when the normalised pattern is a
substring of the normalised name or fnmatch-matches it; the fnmatch glob
language has bracketed character classes beyond the claimed star and
question-mark wildcards, but coincides with the star-and-question reading
on every bracket-free pattern (second conjunct).  The spec's concrete
examples behave as stated, and [ab] matching a exhibits the class-pattern
divergence. -/
theorem c4_match_predicate :
    (∀ (cs : Bool) (pat nm : String) (isDir : Bool),
      should_include_item "both" cs pat nm isDir =
        (containsSub (if cs then pat else lowerStr pat).toList
            (if cs then nm else lowerStr nm).toList ||
          globMatch (if cs then pat else lowerStr pat).toList
            (if cs then nm else lowerStr nm).toList)) ∧
    (∀ (p s : List Char), p.contains '[' = false → globMatch p s = globStarQ p s) ∧
    should_include_item "both" false "*.txt" "a.txt" false = true ∧
    should_include_item "both" false "*.txt" "a.tx" false = false ∧
    should_include_item "both" false "config" "myconfig.json" false = true ∧
    should_include_item "both" false "[ab]" "a" false = true ∧
    quickNameMatch "config" "MyConfig.json" = true ∧
    quickNameMatch "*.txt" "a.tx" = false := by
  refine ⟨?_, fun p s h => globMatch_no_bracket p s h,
    by decide, by decide, by decide, by decide, by decide, by decide⟩
  intro cs pat nm isDir
  show (if ("both" : String) == "files" && isDir then false
    else if ("both" : String) == "folders" && !isDir then false
    else _) = _
  norm_num [show (("both" : String) == "files") = false from rfl,
    show (("both" : String) == "folders") = false from rfl]
  exact Bool.or_comm _ _

/-- Witness for c4_match_predicate: the bracket-free equivalence applied
at a concrete pattern and name. -/
theorem c4_match_predicate_witness :
    ("a*c".toList.contains '[' = false) ∧
    globMatch "a*c".toList "abc".toList = globStarQ "a*c".toList "abc".toList :=
  ⟨by decide, c4_match_predicate.2.1 "a*c".toList "abc".toList (by decide)⟩

/-- Claim C6: a nonexistent root makes search_drive and find_duplicates
return immediately with success false, the failure message, empty items
and zero counts, for every combination of the remaining arguments. -/
theorem c6_missing_root :
    (∀ (sp p st : String) (m : Int) (cs : Bool) (md : Int) (b : Option Nat) (fuel : Nat),
      search_drive sp p st m cs md none b fuel =
        { success := false, message := "Search path " ++ p ++ " does not exist",
          found_items := [], total_count := 0, search_type := "both",
          search_path := none }) ∧
    (∀ d : String, find_duplicates none d =
      { success := false, message := "Directory " ++ d ++ " does not exist",
        duplicate_groups := [], total_duplicates := 0, space_wasted := 0 }) :=
  ⟨fun _ _ _ _ _ _ _ _ => rfl, fun _ => rfl⟩

/-- Claim C9: removing a non-empty directory fails with the not-empty
message and leaves the target untouched; remove_directory succeeds exactly
on an existing, empty directory, and on every failure the target state is
unchanged. -/
theorem c9_remove_nonempty (dp : String) (entries : List String) (h : entries ≠ []) :
    (remove_directory dp (some (DirEntry.dirEntry entries))).1.success = false ∧
    (remove_directory dp (some (DirEntry.dirEntry entries))).1.message =
      "Directory " ++ dp ++ " is not empty" ∧
    (remove_directory dp (some (DirEntry.dirEntry entries))).2 =
      some (DirEntry.dirEntry entries) ∧
    (∀ t : Option DirEntry,
      ((remove_directory dp t).1.success = true ↔ t = some (DirEntry.dirEntry [])) ∧
      ((remove_directory dp t).1.success = false → (remove_directory dp t).2 = t)) := by
  have hne : entries.isEmpty = false := by
    cases entries with
    | nil => exact absurd rfl h
    | cons a l => rfl
  refine ⟨?_, ?_, ?_, ?_⟩
  · simp [remove_directory, hne]
  · simp [remove_directory, hne]
  · simp [remove_directory, hne]
  · intro t
    rcases t with _ | e
    · exact ⟨by simp [remove_directory], fun _ => rfl⟩
    · cases e with
      | fileEntry => exact ⟨by simp [remove_directory], fun _ => rfl⟩
      | dirEntry es =>
        cases es with
        | nil => exact ⟨by simp [remove_directory], by simp [remove_directory]⟩
        | cons a l => exact ⟨by simp [remove_directory], fun _ => by simp [remove_directory]⟩

/-- Witness for c9_remove_nonempty at a concrete non-empty directory. -/
theorem c9_remove_nonempty_witness :
    (["x.txt"] : List String) ≠ [] ∧
    ((remove_directory "d" (some (DirEntry.dirEntry ["x.txt"]))).1.success = false ∧
      (remove_directory "d" (some (DirEntry.dirEntry ["x.txt"]))).1.message =
        "Directory " ++ "d" ++ " is not empty" ∧
      (remove_directory "d" (some (DirEntry.dirEntry ["x.txt"]))).2 =
        some (DirEntry.dirEntry ["x.txt"]) ∧
      (∀ t : Option DirEntry,
        ((remove_directory "d" t).1.success = true ↔ t = some (DirEntry.dirEntry [])) ∧
        ((remove_directory "d" t).1.success = false → (remove_directory "d" t).2 = t))) :=
  ⟨by decide, c9_remove_nonempty "d" ["x.txt"] (by decide)⟩

/-- Counterexample to claim C10: invoked with an empty file path and
append=true on an existing file, write_file returns from the no-path guard
before touching the filesystem: the call fails, reports no operation, and
the resulting content is the untouched old content, not the old content
plus a newline plus the given content. -/
theorem c10_counterexample :
    (write_file "" "b" true (some "a")).2 = some "a" ∧
    (write_file "" "b" true (some "a")).2 ≠ some ("a" ++ "\n" ++ "b") ∧
    (write_file "" "b" true (some "a")).1.success = false ∧
    (write_file "" "b" true (some "a")).1.operation ≠ some "appended" := by
  exact ⟨rfl, by decide, rfl, by decide⟩

/-- Claim C10 (amended): for every nonempty file path, appending to an
existing file always inserts one separator newline between the old content
and the new content (also when the new content is empty) and reports the
appended operation, while a missing file or append set to false makes the
file content exactly the given content; for the empty file path the
no-path guard fails the call with its message and writes nothing, for
every content, append flag and prior state. -/
theorem c10_write_append (fp old content : String) (h : fp ≠ "") :
    ((write_file fp content true (some old)).2 = some (old ++ "\n" ++ content) ∧
     (write_file fp content true (some old)).1.operation = some "appended" ∧
     (write_file fp content true (some old)).1.success = true ∧
     (write_file fp "" true (some old)).2 = some (old ++ "\n") ∧
     (write_file fp content true none).2 = some content ∧
     (write_file fp content false (some old)).2 = some content ∧
     (write_file fp content false none).2 = some content) ∧
    (∀ (c : String) (a : Bool) (e : Option String),
      (write_file "" c a e).1.success = false ∧
      (write_file "" c a e).1.message = "No file path provided" ∧
      (write_file "" c a e).2 = e) := by
  refine ⟨⟨?_, ?_, ?_, ?_, ?_, ?_, ?_⟩, fun c a e => ⟨rfl, rfl, rfl⟩⟩ <;>
    simp [write_file, h]

/-- A hash occurs among the dict keys exactly when some record carries it. -/
theorem mem_hashKeys (rs : List DupRec) (h : String) :
    h ∈ hashKeys rs ↔ ∃ r ∈ rs, r.hash = h := by
  induction rs with
  | nil => simp [hashKeys]
  | cons r rs ih =>
    simp only [hashKeys, List.mem_cons, List.mem_filter, bne_iff_ne, ne_eq]
    constructor
    · rintro (rfl | ⟨hmem, _⟩)
      · exact ⟨r, Or.inl rfl, rfl⟩
      · obtain ⟨r2, hr2, hh⟩ := ih.mp hmem
        exact ⟨r2, Or.inr hr2, hh⟩
    · rintro ⟨r2, hr2, hh⟩
      rcases hr2 with heq | hr2
      · subst heq
        exact Or.inl hh.symm
      · by_cases he : h = r.hash
        · exact Or.inl he
        · exact Or.inr ⟨ih.mpr ⟨r2, hr2, hh⟩, he⟩

/-- A hash is reported as a duplicate group exactly when at least two
records carry it. -/
theorem dupGroups_hash_iff (rs : List DupRec) (h : String) :
    (∃ g ∈ duplicate_groups rs, g.hash = h) ↔ 2 ≤ (groupOf rs h).length := by
  constructor
  · rintro ⟨g, hg, hgh⟩
    simp only [duplicate_groups, List.mem_filterMap] at hg
    obtain ⟨k, _, hfk⟩ := hg
    by_cases hl : (groupOf rs k).length > 1
    · simp only [hl, if_true, Option.some.injEq] at hfk
      subst hfk
      have hk : k = h := hgh
      subst hk
      omega
    · simp [hl] at hfk
  · intro hlen
    have hne : (groupOf rs h).length > 1 := by omega
    have hpos : 0 < (groupOf rs h).length := by omega
    have hmem : h ∈ hashKeys rs := by
      obtain ⟨r, hr⟩ := List.exists_mem_of_length_pos hpos
      have hrf := List.mem_filter.mp hr
      exact (mem_hashKeys rs h).mpr ⟨r, hrf.1, by simpa using hrf.2⟩
    refine ⟨{ hash := h, files := groupOf rs h, count := (groupOf rs h).length,
              size_each := ((groupOf rs h).headD
                { path := "", name := "", size := 0, hash := h }).size }, ?_, rfl⟩
    simp only [duplicate_groups, List.mem_filterMap]
    exact ⟨h, hmem, by simp [hne]⟩

/-- Claim C5: a group is reported exactly for hashes carried by at least
two eligible records; total_duplicates and space_wasted are the stated
sums over the reported groups, whose counts are the group sizes (all at
least 2); the three-identical-plus-one-different example yields one group
of three, two duplicates and twice the file size of wasted space. -/
theorem c5_duplicates :
    (∀ (rs : List DupRec) (h : String),
      (∃ g ∈ (find_duplicates (some rs) "d").duplicate_groups, g.hash = h) ↔
        2 ≤ (groupOf (eligible rs) h).length) ∧
    (∀ (rs : List DupRec) (d : String),
      (find_duplicates (some rs) d).total_duplicates =
        ((find_duplicates (some rs) d).duplicate_groups.map (fun g => g.count - 1)).sum ∧
      (find_duplicates (some rs) d).space_wasted =
        ((find_duplicates (some rs) d).duplicate_groups.map
          (fun g => (g.count - 1) * g.size_each)).sum) ∧
    (∀ (rs : List DupRec) (d : String),
      ∀ g ∈ (find_duplicates (some rs) d).duplicate_groups,
        g.count = g.files.length ∧ 2 ≤ g.count ∧ g.files = groupOf (eligible rs) g.hash) ∧
    (find_duplicates (some [⟨"d/a", "a", 7, "h1"⟩, ⟨"d/b", "b", 7, "h1"⟩,
        ⟨"d/c", "c", 7, "h1"⟩, ⟨"d/e", "e", 4, "h2"⟩]) "d" =
      ⟨true, "Found 1 groups of duplicates",
        [⟨"h1", [⟨"d/a", "a", 7, "h1"⟩, ⟨"d/b", "b", 7, "h1"⟩, ⟨"d/c", "c", 7, "h1"⟩], 3, 7⟩],
        2, 2 * 7⟩) := by
  refine ⟨?_, fun rs d => ⟨rfl, rfl⟩, ?_, by decide⟩
  · intro rs h
    exact dupGroups_hash_iff (eligible rs) h
  · intro rs d g hg
    simp only [find_duplicates, duplicate_groups, List.mem_filterMap] at hg
    obtain ⟨k, _, hfk⟩ := hg
    by_cases hl : (groupOf (eligible rs) k).length > 1
    · simp only [hl, if_true, Option.some.injEq] at hfk
      subst hfk
      refine ⟨rfl, ?_, rfl⟩
      show 2 ≤ (groupOf (eligible rs) k).length
      omega
    · simp [hl] at hfk

/-- Counterexample to claim C3: the list_files tool, invoked on an
existing directory, returns a bare string (the listing sentence), not a
structured object carrying success and message fields. -/
theorem c3_counterexample :
    list_files_result "docs" (some (ListTarget.dirTarget ["a.txt"])) =
      Json.jstr "Files in docs: a.txt" ∧
    isStructured (list_files_result "docs" (some (ListTarget.dirTarget ["a.txt"]))) = false :=
  ⟨rfl, rfl⟩

/-- Claim C3 (amended): every tool returns normally for every input (each
embedded tool is a total function); the tools with output schemas always
produce a JSON object with boolean success and string message fields; but
list_files and read_file return bare JSON strings carrying no success or
message field. -/
theorem c3_structured_results :
    (∀ (sp p st : String) (m : Int) (cs : Bool) (md : Int)
        (fs : Option (List FsNode)) (b : Option Nat) (fuel : Nat),
      isStructured (driveOutputJson (search_drive sp p st m cs md fs b fuel)) = true) ∧
    (∀ (qp qt : String) (m : Int)
        (roots : List (String × Option (List FsNode))) (fuel : Nat),
      isStructured (driveOutputJson (quick_search qp qt m roots fuel)) = true) ∧
    (∀ (fs : Option (List DupRec)) (d : String),
      isStructured (dupOutputJson (find_duplicates fs d)) = true) ∧
    (∀ (dp : String) (t : Option DirEntry),
      isStructured (directoryOutputJson (remove_directory dp t).1) = true) ∧
    (∀ (fp c : String) (a : Bool) (e : Option String),
      isStructured (writerOutputJson (write_file fp c a e).1) = true) ∧
    (∀ (d : String) (t : Option ListTarget),
      ∃ s, list_files_result d t = Json.jstr s) ∧
    (∀ (fp : String) (c : Option String),
      ∃ s, read_file_result fp c = Json.jstr s) :=
  ⟨fun _ _ _ _ _ _ _ _ _ => rfl, fun _ _ _ _ _ => rfl, fun _ _ => rfl,
   fun _ _ => rfl, fun _ _ _ _ => rfl,
   fun d t => ⟨list_files d t, rfl⟩, fun fp c => ⟨read_file fp c, rfl⟩⟩

/-- Witness for c10_write_append at concrete path and contents. -/
theorem c10_write_append_witness :
    ("notes.txt" : String) ≠ "" ∧
    (((write_file "notes.txt" "b" true (some "a")).2 = some ("a" ++ "\n" ++ "b") ∧
      (write_file "notes.txt" "b" true (some "a")).1.operation = some "appended" ∧
      (write_file "notes.txt" "b" true (some "a")).1.success = true ∧
      (write_file "notes.txt" "" true (some "a")).2 = some ("a" ++ "\n") ∧
      (write_file "notes.txt" "b" true none).2 = some "b" ∧
      (write_file "notes.txt" "b" false (some "a")).2 = some "b" ∧
      (write_file "notes.txt" "b" false none).2 = some "b") ∧
     (∀ (c : String) (a : Bool) (e : Option String),
       (write_file "" c a e).1.success = false ∧
       (write_file "" c a e).1.message = "No file path provided" ∧
       (write_file "" c a e).2 = e)) :=
  ⟨by decide, c10_write_append "notes.txt" "a" "b" (by decide)⟩

/-- Counterexample to claim C1: for max_results = -1 (the tool accepts any
int) the walk breaks before emitting anything and returns total_count 0,
which is not at or below max_results, so the conjunction claimed for every
max_results fails. -/
theorem c1_counterexample :
    ¬ (((search_drive "*" "r" "files" (-1) false 3
          (some [FsNode.file "a.txt" 3]) none 9).total_count =
        (search_drive "*" "r" "files" (-1) false 3
          (some [FsNode.file "a.txt" 3]) none 9).found_items.length) ∧
       (((search_drive "*" "r" "files" (-1) false 3
          (some [FsNode.file "a.txt" 3]) none 9).total_count : Int) ≤ -1)) := by
  decide

/-- Claim C1 (amended): for every search_drive and quick_search invocation,
unconditionally, total_count equals the length of found_items; and whenever
max_results is nonnegative (in particular for every spec-valid request,
which requires a positive max_results) total_count is at most max_results,
because the cap is checked before every single candidate emission. -/
theorem c1_count_cap
    (sp p st : String) (m1 : Int) (cs : Bool) (md : Int)
    (fs : Option (List FsNode)) (b : Option Nat) (fuel : Nat)
    (qp qt : String) (m2 : Int)
    (roots : List (String × Option (List FsNode))) (fuel2 : Nat) :
    ((search_drive sp p st m1 cs md fs b fuel).total_count =
      (search_drive sp p st m1 cs md fs b fuel).found_items.length) ∧
    (0 ≤ m1 → ((search_drive sp p st m1 cs md fs b fuel).total_count : Int) ≤ m1) ∧
    ((quick_search qp qt m2 roots fuel2).total_count =
      (quick_search qp qt m2 roots fuel2).found_items.length) ∧
    (0 ≤ m2 → ((quick_search qp qt m2 roots fuel2).total_count : Int) ≤ m2) := by
  refine ⟨?_, ?_, ?_, ?_⟩
  · cases fs with
    | none => rfl
    | some children =>
      simp only [search_drive]
      exact (walk_master _ p fuel (WalkTask.node p children) (initState b)
        ⟨[], rfl, by simp⟩).2.1 rfl
  · intro h1
    cases fs with
    | none => simpa [search_drive] using h1
    | some children =>
      simp only [search_drive]
      refine (walk_master _ p fuel (WalkTask.node p children) (initState b)
        ⟨[], rfl, by simp⟩).2.2 ?_
      simpa [initState] using h1
  · simp only [quick_search]
    exact (quickFold_master _ fuel2 roots (initState none)).2.1 rfl
  · intro h2
    simp only [quick_search]
    refine (quickFold_master _ fuel2 roots (initState none)).2.2 ?_
    simpa [initState] using h2

/-- Witness for c1_count_cap at concrete searches, discharging the two
embedded nonnegativity hypotheses. -/
theorem c1_count_cap_witness :
    ((search_drive "*" "r" "both" 50 false 3
        (some [FsNode.file "a.txt" 3]) none 9).total_count =
      (search_drive "*" "r" "both" 50 false 3
        (some [FsNode.file "a.txt" 3]) none 9).found_items.length) ∧
    (((search_drive "*" "r" "both" 50 false 3
        (some [FsNode.file "a.txt" 3]) none 9).total_count : Int) ≤ 50) ∧
    ((quick_search "a" "both" 30 [("h", some [FsNode.file "abc.txt" 1])] 9).total_count =
      (quick_search "a" "both" 30 [("h", some [FsNode.file "abc.txt" 1])] 9).found_items.length) ∧
    (((quick_search "a" "both" 30
        [("h", some [FsNode.file "abc.txt" 1])] 9).total_count : Int) ≤ 30) :=
  ⟨(c1_count_cap "*" "r" "both" 50 false 3 (some [FsNode.file "a.txt" 3]) none 9
      "a" "both" 30 [("h", some [FsNode.file "abc.txt" 1])] 9).1,
   (c1_count_cap "*" "r" "both" 50 false 3 (some [FsNode.file "a.txt" 3]) none 9
      "a" "both" 30 [("h", some [FsNode.file "abc.txt" 1])] 9).2.1 (by decide),
   (c1_count_cap "*" "r" "both" 50 false 3 (some [FsNode.file "a.txt" 3]) none 9
      "a" "both" 30 [("h", some [FsNode.file "abc.txt" 1])] 9).2.2.1,
   (c1_count_cap "*" "r" "both" 50 false 3 (some [FsNode.file "a.txt" 3]) none 9
      "a" "both" 30 [("h", some [FsNode.file "abc.txt" 1])] 9).2.2.2 (by decide)⟩

/-- Counterexample to claim C2, in both of its readings.  First, the
boundary: with max_depth 1, the file directly inside the search root is
emitted, and its path lies exactly one separator-free component below the
root, i.e. at depth 1 = max_depth, contradicting the claim that no emitted
item lies at depth at or above max_depth.  Second, the depth the guard
tests is the source string formula root.replace(search_path, "").count(sep),
which under-counts when the search path re-occurs below the root: with
search path a/b over c/a/b/f and max_depth 3, the directory a/b/c/a/b has
computed depth 2 (both occurrences of a/b are deleted, leaving /c/), so the
file f is emitted four separator-free components below the root, deeper
than max_depth. -/
theorem c2_counterexample :
    (∃ it ∈ (search_drive "*" "r" "files" 50 false 1
        (some [FsNode.file "a.txt" 3]) none 9).found_items,
      ∃ parts : List String, it.path = joinAll "r" parts ∧
        (∀ n ∈ parts, n.toList.contains '/' = false) ∧
        (1 : Int) ≤ (parts.length : Int)) ∧
    (∃ it ∈ (search_drive "*" "a/b" "files" 50 false 3
        (some [FsNode.dir "c" [FsNode.dir "a" [FsNode.dir "b" [FsNode.file "f" 1]]]])
        none 9).found_items,
      ∃ parts : List String, it.path = joinAll "a/b" parts ∧
        (∀ n ∈ parts, n.toList.contains '/' = false) ∧
        (3 : Int) < (parts.length : Int)) :=
  ⟨⟨⟨"a.txt", "file", "r/a.txt", "r", some 3⟩, by decide,
    ["a.txt"], by decide, by decide, by decide⟩,
   ⟨⟨"f", "file", "a/b/c/a/b/f", "a/b/c/a/b", some 1⟩, by decide,
    ["c", "a", "b", "f"], by decide, by decide, by decide⟩⟩

/-- Visiting a directory whose source-computed depth is at or beyond the
depth limit emits nothing and recurses nowhere: dirs are cleared and the
walk continues, leaving the accumulated items and the count untouched. -/
theorem walk_depth_guard (P : Params) (base : String) (fuel : Nat) (root : String)
    (children : List FsNode) (s : SState)
    (hd : (current_depth root base : Int) ≥ P.maxDepth) :
    (walk P base fuel (WalkTask.node root children) s).found = s.found ∧
    (walk P base fuel (WalkTask.node root children) s).count = s.count := by
  cases fuel with
  | zero => exact ⟨rfl, rfl⟩
  | succ f =>
    simp only [walk]
    split
    · exact ⟨rfl, rfl⟩
    · split
      · exact ⟨by simp, by simp⟩
      · split
        · exact ⟨by simp, by simp⟩
        · simp [hd]

theorem joinAll_eq : ∀ (parts : List String) (base : String),
    joinAll base parts = base ++ joinTail parts := by
  intro parts
  induction parts with
  | nil =>
    intro base
    apply String.ext
    simp [joinAll, joinTail]
  | cons n rest ih =>
    intro base
    have h1 : joinAll base (n :: rest) = joinAll (base ++ "/" ++ n) rest := rfl
    rw [h1, ih]
    apply String.ext
    simp [joinTail, String.data_append, List.append_assoc]

theorem sepCount_joinTail (parts : List String)
    (h : ∀ n ∈ parts, n.data.count '/' = 0) :
    sepCount (joinTail parts) = parts.length := by
  induction parts with
  | nil => rfl
  | cons n rest ih =>
    have hn := h n (List.mem_cons_self n rest)
    have hrest := ih (fun x hx => h x (List.mem_cons_of_mem n hx))
    show sepCount ("/" ++ n ++ joinTail rest) = rest.length + 1
    simp only [sepCount] at hrest ⊢
    simp only [String.data_append, List.count_append]
    have hsep : ("/" : String).data.count '/' = 1 := rfl
    rw [hsep, hn, hrest]
    omega

theorem containsSub_cons_false {old : List Char} {c : Char} {rest : List Char}
    (h : containsSub old (c :: rest) = false) :
    old.isPrefixOf (c :: rest) = false ∧ containsSub old rest = false := by
  simp only [containsSub, List.tails_cons, List.any_cons, Bool.or_eq_false_iff] at h
  exact ⟨h.1, by simp only [containsSub]; exact h.2⟩

theorem dropOccAux_not_contains (old : List Char) :
    ∀ (fuel : Nat) (t : List Char), t.length ≤ fuel →
      containsSub old t = false → dropOccAux old fuel t = t := by
  intro fuel
  induction fuel with
  | zero =>
    intro t hlen _
    have ht : t = [] := List.eq_nil_of_length_eq_zero (Nat.le_zero.mp hlen)
    subst ht
    rfl
  | succ fuel ih =>
    intro t hlen hc
    cases t with
    | nil => rfl
    | cons c rest =>
      obtain ⟨hpre, hrest⟩ := containsSub_cons_false hc
      have hlen2 : rest.length ≤ fuel := by
        simp only [List.length_cons] at hlen
        omega
      simp only [dropOccAux, hpre, Bool.and_false]
      rw [ih rest hlen2 hrest]
      simp

theorem dropOccAux_prefix (old t : List Char) (hne : old ≠ [])
    (hc : containsSub old t = false) (fuel : Nat)
    (hlen : (old ++ t).length ≤ fuel) :
    dropOccAux old fuel (old ++ t) = t := by
  cases fuel with
  | zero =>
    exfalso
    have holen : 1 ≤ old.length := by
      cases old with
      | nil => exact absurd rfl hne
      | cons a l => simp
    simp only [List.length_append] at hlen
    omega
  | succ f =>
    obtain ⟨o, os, rfl⟩ : ∃ o os, old = o :: os := by
      cases old with
      | nil => exact absurd rfl hne
      | cons a l => exact ⟨a, l, rfl⟩
    have hcond : (!(o :: os).isEmpty && (o :: os).isPrefixOf (o :: (os ++ t))) = true := by
      simp only [List.isEmpty_cons, Bool.not_false, Bool.true_and]
      rw [List.isPrefixOf_iff_prefix]
      exact List.prefix_append (o :: os) t
    show dropOccAux (o :: os) (f + 1) (o :: (os ++ t)) = t
    simp only [dropOccAux, hcond, if_true]
    rw [show (o :: (os ++ t)).drop (o :: os).length = t from List.drop_left (o :: os) t]
    refine dropOccAux_not_contains (o :: os) f t ?_ hc
    simp only [List.length_append, List.length_cons] at hlen
    omega

theorem pyReplaceEmpty_append (p t : String) (hne : p ≠ "")
    (hc : containsSub p.data t.data = false) :
    pyReplaceEmpty (p ++ t) p = t := by
  have hdata : p.data ≠ [] := by
    intro h
    exact hne (String.ext (by rw [h]))
  apply String.ext
  show dropOccAux p.data (p ++ t).data.length (p ++ t).data = t.data
  rw [String.data_append]
  exact dropOccAux_prefix p.data t.data hdata hc _ (le_refl _)

/-- When the search path is nonempty and does not re-occur inside the
appended chain of separator-free child names, the source depth formula
computes exactly the number of those names. -/
theorem current_depth_clean (p : String) (parts : List String) (hne : p ≠ "")
    (hc : containsSub p.data (joinTail parts).data = false)
    (hsep : ∀ n ∈ parts, n.data.count '/' = 0) :
    current_depth (joinAll p parts) p = parts.length := by
  rw [joinAll_eq parts p]
  show sepCount (pyReplaceEmpty (p ++ joinTail parts) p) = parts.length
  rw [pyReplaceEmpty_append p (joinTail parts) hne hc]
  exact sepCount_joinTail parts hsep

/-- Claim C2 (amended): the depth the guard bounds is the one the source
computes from the strings, current_depth root base = the separators left
in root.replace(base, ""); for every emitted item that computed depth of
the parent directory lies strictly below max_depth, and a directory whose
computed depth reaches max_depth emits nothing and is recursed into
nowhere (last conjunct).  When the search path is nonempty, not
separator-terminated (so the modelled one-separator join matches
os.path.join), and does not re-occur inside the appended subpath of
separator-free names, the computed depth equals the component count and
every item path is the root extended by at most max_depth name components;
for separator-terminated or re-occurring search paths the formula
under-counts and matching items from deeper directories are emitted, as
the counterexample shows.  quick_search behaves identically with its
fixed limit 2 below whichever candidate root the item was found under. -/
theorem c2_depth_bound
    (sp p st : String) (m : Int) (cs : Bool) (md : Int)
    (fs : Option (List FsNode)) (b : Option Nat) (fuel : Nat)
    (qp qt : String) (m2 : Int)
    (roots : List (String × Option (List FsNode))) (fuel2 : Nat) :
    (∀ it ∈ (search_drive sp p st m cs md fs b fuel).found_items,
      ∃ parts : List String,
        it.parent_directory = joinAll p parts ∧
        it.path = joinAll p (parts ++ [it.name]) ∧
        (current_depth it.parent_directory p : Int) < md ∧
        (p ≠ "" → endsSep p = false →
          containsSub p.data (joinTail parts).data = false →
          (∀ n ∈ parts, n.data.count '/' = 0) →
          (parts.length : Int) + 1 ≤ md)) ∧
    (∀ it ∈ (quick_search qp qt m2 roots fuel2).found_items,
      ∃ r ∈ roots, ∃ parts : List String,
        it.parent_directory = joinAll r.1 parts ∧
        it.path = joinAll r.1 (parts ++ [it.name]) ∧
        (current_depth it.parent_directory r.1 : Int) < 2 ∧
        (r.1 ≠ "" → endsSep r.1 = false →
          containsSub r.1.data (joinTail parts).data = false →
          (∀ n ∈ parts, n.data.count '/' = 0) →
          (parts.length : Int) + 1 ≤ 2)) ∧
    (∀ (P : Params) (base : String) (fuelx : Nat) (root : String)
        (children : List FsNode) (s : SState),
      (current_depth root base : Int) ≥ P.maxDepth →
      (walk P base fuelx (WalkTask.node root children) s).found = s.found ∧
      (walk P base fuelx (WalkTask.node root children) s).count = s.count) := by
  refine ⟨?_, ?_, fun P base fuelx root children s hd =>
    walk_depth_guard P base fuelx root children s hd⟩
  · intro it hit
    cases fs with
    | none => simp [search_drive] at hit
    | some children =>
      simp only [search_drive] at hit
      rcases (walk_master _ p fuel (WalkTask.node p children) (initState b)
        ⟨[], rfl, by simp⟩).1 it hit with h | hspec
      · simp [initState] at h
      · obtain ⟨parts, hpar, hpath, hlt, -, -, -⟩ := hspec
        refine ⟨parts, hpar, ?_, hlt, ?_⟩
        · rw [joinAll_append, ← hpar]
          exact hpath
        · intro hpne _ hcont hsep
          rw [hpar, current_depth_clean p parts hpne hcont hsep] at hlt
          have hmd : ((parts.length : Nat) : Int) < md := hlt
          omega
  · intro it hit
    simp only [quick_search] at hit
    rcases (quickFold_master _ fuel2 roots (initState none)).1 it hit with h | ⟨r, hr, hspec⟩
    · simp [initState] at h
    · obtain ⟨parts, hpar, hpath, hlt, -, -, -⟩ := hspec
      refine ⟨r, hr, parts, hpar, ?_, hlt, ?_⟩
      · rw [joinAll_append, ← hpar]
        exact hpath
      · intro hpne _ hcont hsep
        rw [hpar, current_depth_clean r.1 parts hpne hcont hsep] at hlt
        have hmd : ((parts.length : Nat) : Int) < 2 := hlt
        omega

/-- Witness for c2_depth_bound at a concrete search and item. -/
theorem c2_depth_bound_witness :
    (⟨"a.txt", "file", "r/a.txt", "r", some 3⟩ : FoundItem) ∈
      (search_drive "*" "r" "files" 50 false 3
        (some [FsNode.file "a.txt" 3]) none 9).found_items ∧
    ∃ parts : List String,
      (⟨"a.txt", "file", "r/a.txt", "r", some 3⟩ : FoundItem).parent_directory =
        joinAll "r" parts ∧
      (⟨"a.txt", "file", "r/a.txt", "r", some 3⟩ : FoundItem).path =
        joinAll "r" (parts ++ ["a.txt"]) ∧
      (current_depth
        (⟨"a.txt", "file", "r/a.txt", "r", some 3⟩ : FoundItem).parent_directory "r" : Int) < 3 ∧
      (("r" : String) ≠ "" → endsSep "r" = false →
        containsSub ("r" : String).data (joinTail parts).data = false →
        (∀ n ∈ parts, n.data.count '/' = 0) →
        (parts.length : Int) + 1 ≤ 3) :=
  ⟨by decide,
   (c2_depth_bound "*" "r" "files" 50 false 3 (some [FsNode.file "a.txt" 3]) none 9
      "a" "both" 30 [] 9).1 _ (by decide)⟩

/-- Counterexample to claim C7: only child directories are pruned; a file
whose name starts with a dot is emitted whenever it matches, so it is not
true that no emitted item has an excluded or dot-leading name. -/
theorem c7_counterexample :
    ¬ (∀ it ∈ (search_drive "*" "r" "files" 50 false 3
        (some [FsNode.file ".env" 1]) none 9).found_items,
      keepName skipDirs it.name = true) := by
  decide

/-- Claim C7 (amended): pruning removes excluded and dot-leading child
directories before recursion, so every emitted item sits under a chain of
surviving directory names (no ancestor strictly below the root is excluded
or hidden), and every emitted folder item's own name survives the filter;
but file names are never filtered, so an emitted file may itself carry an
excluded or dot-leading name. -/
theorem c7_pruning
    (sp p st : String) (m : Int) (cs : Bool) (md : Int)
    (fs : Option (List FsNode)) (b : Option Nat) (fuel : Nat)
    (qp qt : String) (m2 : Int)
    (roots : List (String × Option (List FsNode))) (fuel2 : Nat) :
    (∀ it ∈ (search_drive sp p st m cs md fs b fuel).found_items,
      (∃ parts : List String, it.parent_directory = joinAll p parts ∧
        ∀ n ∈ parts, keepName skipDirs n = true) ∧
      (it.type = "folder" → keepName skipDirs it.name = true)) ∧
    (∀ it ∈ (quick_search qp qt m2 roots fuel2).found_items,
      ∃ r ∈ roots,
        (∃ parts : List String, it.parent_directory = joinAll r.1 parts ∧
          ∀ n ∈ parts, keepName ["__pycache__", "node_modules"] n = true) ∧
        (it.type = "folder" → keepName ["__pycache__", "node_modules"] it.name = true)) := by
  constructor
  · intro it hit
    cases fs with
    | none => simp [search_drive] at hit
    | some children =>
      simp only [search_drive] at hit
      rcases (walk_master _ p fuel (WalkTask.node p children) (initState b)
        ⟨[], rfl, by simp⟩).1 it hit with h | hspec
      · simp [initState] at h
      · obtain ⟨parts, hpar, -, -, hkeep, hfold, -⟩ := hspec
        exact ⟨⟨parts, hpar, hkeep⟩, hfold⟩
  · intro it hit
    simp only [quick_search] at hit
    rcases (quickFold_master _ fuel2 roots (initState none)).1 it hit with h | ⟨r, hr, hspec⟩
    · simp [initState] at h
    · obtain ⟨parts, hpar, -, -, hkeep, hfold, -⟩ := hspec
      exact ⟨r, hr, ⟨parts, hpar, hkeep⟩, hfold⟩

/-- Witness for c7_pruning at a concrete search and folder item. -/
theorem c7_pruning_witness :
    (⟨"xdir", "folder", "r/xdir", "r", none⟩ : FoundItem) ∈
      (search_drive "x" "r" "both" 50 false 3
        (some [FsNode.dir "xdir" []]) none 9).found_items ∧
    ((∃ parts : List String,
        (⟨"xdir", "folder", "r/xdir", "r", none⟩ : FoundItem).parent_directory =
          joinAll "r" parts ∧ ∀ n ∈ parts, keepName skipDirs n = true) ∧
      ((⟨"xdir", "folder", "r/xdir", "r", none⟩ : FoundItem).type = "folder" →
        keepName skipDirs (⟨"xdir", "folder", "r/xdir", "r", none⟩ : FoundItem).name = true)) :=
  ⟨by decide,
   (c7_pruning "x" "r" "both" 50 false 3 (some [FsNode.dir "xdir" []]) none 9
      "a" "both" 30 [] 9).1 _ (by decide)⟩

theorem readClock_none (s : SState) (h : s.budget = none) : readClock s = (false, s) := by
  unfold readClock
  rw [h]

theorem readClock_zero (s : SState) (h : s.budget = some 0) : readClock s = (true, s) := by
  unfold readClock
  rw [h]

theorem readClock_succ (s : SState) (k : Nat) (h : s.budget = some (k + 1)) :
    readClock s = (false, { s with budget := some k }) := by
  unfold readClock
  rw [h]

theorem emitOne_eval_none (P : Params) (root : String) (isDir : Bool) (n : String)
    (size : Option Nat) (sf : List FoundItem) (sc : Nat) (sh : Bool) :
    emitOne P root isDir n size ⟨sf, sc, sh, none⟩ =
      if sh then ⟨sf, sc, sh, none⟩
      else if (sc : Int) ≥ P.maxResults then ⟨sf, sc, true, none⟩
      else if includeItem P isDir n then
        ⟨sf ++ [mkItem root isDir n size], sc + 1, sh, none⟩
      else ⟨sf, sc, sh, none⟩ := by
  cases sh <;>
    by_cases hcap : (sc : Int) ≥ P.maxResults <;>
      by_cases hinc : includeItem P isDir n <;>
        simp [emitOne, readClock, haltWalk, hcap, hinc]

theorem emitOne_eval_zero (P : Params) (root : String) (isDir : Bool) (n : String)
    (size : Option Nat) (sf : List FoundItem) (sc : Nat) (sh : Bool) :
    emitOne P root isDir n size ⟨sf, sc, sh, some 0⟩ =
      if sh then ⟨sf, sc, sh, some 0⟩ else ⟨sf, sc, true, some 0⟩ := by
  cases sh <;>
    by_cases hcap : (sc : Int) ≥ P.maxResults <;>
      simp [emitOne, readClock, haltWalk, hcap]

theorem emitOne_eval_succ (P : Params) (root : String) (isDir : Bool) (n : String)
    (size : Option Nat) (sf : List FoundItem) (sc : Nat) (sh : Bool) (j : Nat) :
    emitOne P root isDir n size ⟨sf, sc, sh, some (j + 1)⟩ =
      if sh then ⟨sf, sc, sh, some (j + 1)⟩
      else if (sc : Int) ≥ P.maxResults then ⟨sf, sc, true, some (j + 1)⟩
      else if includeItem P isDir n then
        ⟨sf ++ [mkItem root isDir n size], sc + 1, sh, some j⟩
      else ⟨sf, sc, sh, some j⟩ := by
  cases sh <;>
    by_cases hcap : (sc : Int) ≥ P.maxResults <;>
      by_cases hinc : includeItem P isDir n <;>
        simp [emitOne, readClock, haltWalk, hcap, hinc]

theorem emitOne_budget_le (P : Params) (root : String) (isDir : Bool) (n : String)
    (size : Option Nat) (s : SState) (k : Nat) (h : s.budget = some k) :
    ∃ j ≤ k, (emitOne P root isDir n size s).budget = some j := by
  rcases s with ⟨sf, sc, sh, sb⟩
  simp only at h
  subst h
  cases k with
  | zero =>
    rw [emitOne_eval_zero]
    split <;> exact ⟨0, le_refl 0, rfl⟩
  | succ j =>
    rw [emitOne_eval_succ]
    split
    · exact ⟨j + 1, le_refl _, rfl⟩
    · split
      · exact ⟨j + 1, le_refl _, rfl⟩
      · split
        · exact ⟨j, by omega, rfl⟩
        · exact ⟨j, by omega, rfl⟩

theorem emitOne_budget_none (P : Params) (root : String) (isDir : Bool) (n : String)
    (size : Option Nat) (s : SState) (h : s.budget = none) :
    (emitOne P root isDir n size s).budget = none := by
  rcases s with ⟨sf, sc, sh, sb⟩
  simp only at h
  subst h
  rw [emitOne_eval_none]
  split
  · rfl
  · split
    · rfl
    · split
      · rfl
      · rfl

theorem emitOne_sim (P : Params) (root : String) (isDir : Bool) (n : String)
    (size : Option Nat) (s t : SState) (hr : SimR s t) :
    ∀ m, (emitOne P root isDir n size s).budget = some (m + 1) →
      SimR (emitOne P root isDir n size s) (emitOne P root isDir n size t) := by
  obtain ⟨hf, hc, hh, htb, k, hb⟩ := hr
  rcases s with ⟨sf, sc, sh, sb⟩
  rcases t with ⟨tf, tc, th, tb⟩
  simp only at hf hc hh htb hb
  subst hf
  subst hc
  subst hh
  subst htb
  subst hb
  intro m hm
  rw [emitOne_eval_none]
  cases k with
  | zero =>
    rw [emitOne_eval_zero] at hm
    split at hm <;> simp at hm
  | succ j =>
    rw [emitOne_eval_succ] at hm ⊢
    split
    · exact ⟨rfl, rfl, rfl, rfl, j + 1, rfl⟩
    · split
      · exact ⟨rfl, rfl, rfl, rfl, j + 1, rfl⟩
      · split
        · exact ⟨rfl, rfl, rfl, rfl, j, rfl⟩
        · exact ⟨rfl, rfl, rfl, rfl, j, rfl⟩

theorem foldl_budget_le {α : Type} (f : SState → α → SState)
    (hf : ∀ (s : SState) (a : α) (k : Nat), s.budget = some k →
      ∃ j ≤ k, (f s a).budget = some j) :
    ∀ (l : List α) (s : SState) (k : Nat), s.budget = some k →
      ∃ j ≤ k, (l.foldl f s).budget = some j := by
  intro l
  induction l with
  | nil => intro s k h; exact ⟨k, le_refl k, by simpa using h⟩
  | cons a l ih =>
    intro s k h
    obtain ⟨j, hj, hb⟩ := hf s a k h
    obtain ⟨j2, hj2, hb2⟩ := ih (f s a) j hb
    exact ⟨j2, le_trans hj2 hj, hb2⟩

theorem foldl_budget_none {α : Type} (f : SState → α → SState)
    (hf : ∀ (s : SState) (a : α), s.budget = none → (f s a).budget = none) :
    ∀ (l : List α) (s : SState), s.budget = none → (l.foldl f s).budget = none := by
  intro l
  induction l with
  | nil => intro s h; simpa using h
  | cons a l ih => intro s h; exact ih (f s a) (hf s a h)

theorem foldl_sim {α : Type} (f : SState → α → SState)
    (hmono : ∀ (s : SState) (a : α) (k : Nat), s.budget = some k →
      ∃ j ≤ k, (f s a).budget = some j)
    (hsim : ∀ (s t : SState) (a : α), SimR s t →
      ∀ m, (f s a).budget = some (m + 1) → SimR (f s a) (f t a)) :
    ∀ (l : List α) (s t : SState), SimR s t →
      ∀ m, (l.foldl f s).budget = some (m + 1) →
        SimR (l.foldl f s) (l.foldl f t) := by
  intro l
  induction l with
  | nil => intro s t hr m _; simpa using hr
  | cons a l ih =>
    intro s t hr m hm
    obtain ⟨k, hb⟩ := hr.2.2.2.2
    obtain ⟨j, -, hbj⟩ := hmono s a k hb
    simp only [List.foldl_cons] at hm ⊢
    obtain ⟨j2, hj2, hb2⟩ := foldl_budget_le f hmono l (f s a) j hbj
    rw [hm] at hb2
    have hj1 : 1 ≤ j := by
      injection hb2 with hval
      omega
    obtain ⟨j3, rfl⟩ : ∃ j3, j = j3 + 1 := ⟨j - 1, by omega⟩
    exact ih (f s a) (f t a) (hsim s t a hr j3 hbj) m hm

theorem emitFoldersGuard_budget_le (P : Params) (root : String) (children : List FsNode)
    (s : SState) (k : Nat) (h : s.budget = some k) :
    ∃ j ≤ k, (emitFoldersGuard P root children s).budget = some j := by
  unfold emitFoldersGuard
  split
  · exact foldl_budget_le _ (fun s n k h => emitOne_budget_le P root true n none s k h) _ s k h
  · exact ⟨k, le_refl k, h⟩

theorem emitFilesGuard_budget_le (P : Params) (root : String) (children : List FsNode)
    (s : SState) (k : Nat) (h : s.budget = some k) :
    ∃ j ≤ k, (emitFilesGuard P root children s).budget = some j := by
  unfold emitFilesGuard
  split
  · exact foldl_budget_le _ (fun s e k h => emitOne_budget_le P root false e.1 (some e.2) s k h) _ s k h
  · exact ⟨k, le_refl k, h⟩

theorem emitFoldersGuard_budget_none (P : Params) (root : String) (children : List FsNode)
    (s : SState) (h : s.budget = none) :
    (emitFoldersGuard P root children s).budget = none := by
  unfold emitFoldersGuard
  split
  · exact foldl_budget_none _ (fun s n hs => emitOne_budget_none P root true n none s hs) _ s h
  · exact h

theorem emitFilesGuard_budget_none (P : Params) (root : String) (children : List FsNode)
    (s : SState) (h : s.budget = none) :
    (emitFilesGuard P root children s).budget = none := by
  unfold emitFilesGuard
  split
  · exact foldl_budget_none _ (fun s e hs => emitOne_budget_none P root false e.1 (some e.2) s hs) _ s h
  · exact h

theorem emitFoldersGuard_sim (P : Params) (root : String) (children : List FsNode)
    (s t : SState) (hr : SimR s t) :
    ∀ m, (emitFoldersGuard P root children s).budget = some (m + 1) →
      SimR (emitFoldersGuard P root children s) (emitFoldersGuard P root children t) := by
  intro m hm
  unfold emitFoldersGuard at hm ⊢
  by_cases hcond : (P.searchType == "folders" || P.searchType == "both") = true
  · simp only [if_pos hcond] at hm ⊢
    exact foldl_sim _ (fun s n k h => emitOne_budget_le P root true n none s k h)
      (fun s t n hr m hm => emitOne_sim P root true n none s t hr m hm) _ s t hr m hm
  · simp only [if_neg hcond]
    exact hr

theorem emitFilesGuard_sim (P : Params) (root : String) (children : List FsNode)
    (s t : SState) (hr : SimR s t) :
    ∀ m, (emitFilesGuard P root children s).budget = some (m + 1) →
      SimR (emitFilesGuard P root children s) (emitFilesGuard P root children t) := by
  intro m hm
  unfold emitFilesGuard at hm ⊢
  by_cases hcond : (P.searchType == "files" || P.searchType == "both") = true
  · simp only [if_pos hcond] at hm ⊢
    exact foldl_sim _ (fun s e k h => emitOne_budget_le P root false e.1 (some e.2) s k h)
      (fun s t e hr m hm => emitOne_sim P root false e.1 (some e.2) s t hr m hm) _ s t hr m hm
  · simp only [if_neg hcond]
    exact hr

theorem walk_node_eval_none (P : Params) (base : String) (fuel : Nat) (root : String)
    (children : List FsNode) (sf : List FoundItem) (sc : Nat) (sh : Bool) :
    walk P base (fuel + 1) (WalkTask.node root children) ⟨sf, sc, sh, none⟩ =
      if sh then ⟨sf, sc, sh, none⟩
      else if (sc : Int) ≥ P.maxResults then ⟨sf, sc, true, none⟩
      else if (current_depth root base : Int) ≥ P.maxDepth then ⟨sf, sc, sh, none⟩
      else walk P base fuel (WalkTask.sibs root children)
        (emitFilesGuard P root children (emitFoldersGuard P root children ⟨sf, sc, sh, none⟩)) := by
  cases sh <;>
    by_cases hcap : (sc : Int) ≥ P.maxResults <;>
      by_cases hd : (current_depth root base : Int) ≥ P.maxDepth <;>
        simp [walk, readClock, haltWalk, hcap, hd]

theorem walk_node_eval_zero (P : Params) (base : String) (fuel : Nat) (root : String)
    (children : List FsNode) (sf : List FoundItem) (sc : Nat) (sh : Bool) :
    walk P base (fuel + 1) (WalkTask.node root children) ⟨sf, sc, sh, some 0⟩ =
      if sh then ⟨sf, sc, sh, some 0⟩ else ⟨sf, sc, true, some 0⟩ := by
  cases sh <;> simp [walk, readClock, haltWalk]

theorem walk_node_eval_succ (P : Params) (base : String) (fuel : Nat) (root : String)
    (children : List FsNode) (sf : List FoundItem) (sc : Nat) (sh : Bool) (j : Nat) :
    walk P base (fuel + 1) (WalkTask.node root children) ⟨sf, sc, sh, some (j + 1)⟩ =
      if sh then ⟨sf, sc, sh, some (j + 1)⟩
      else if (sc : Int) ≥ P.maxResults then ⟨sf, sc, true, some j⟩
      else if (current_depth root base : Int) ≥ P.maxDepth then ⟨sf, sc, sh, some j⟩
      else walk P base fuel (WalkTask.sibs root children)
        (emitFilesGuard P root children (emitFoldersGuard P root children ⟨sf, sc, sh, some j⟩)) := by
  cases sh <;>
    by_cases hcap : (sc : Int) ≥ P.maxResults <;>
      by_cases hd : (current_depth root base : Int) ≥ P.maxDepth <;>
        simp [walk, readClock, haltWalk, hcap, hd]

theorem walk_budget_le (P : Params) (base : String) :
    ∀ (fuel : Nat) (task : WalkTask) (s : SState) (k : Nat), s.budget = some k →
      ∃ j ≤ k, (walk P base fuel task s).budget = some j := by
  intro fuel
  induction fuel with
  | zero => intro task s k h; exact ⟨k, le_refl k, by simpa [walk] using h⟩
  | succ fuel ih =>
    intro task s k h
    cases task with
    | node root children =>
      rcases s with ⟨sf, sc, sh, sb⟩
      simp only at h
      subst h
      cases k with
      | zero =>
        rw [walk_node_eval_zero]
        split <;> exact ⟨0, le_refl 0, rfl⟩
      | succ i =>
        rw [walk_node_eval_succ]
        split
        · exact ⟨i + 1, le_refl _, rfl⟩
        · split
          · exact ⟨i, by omega, rfl⟩
          · split
            · exact ⟨i, by omega, rfl⟩
            · have hb1 : ((⟨sf, sc, sh, some i⟩ : SState)).budget = some i := rfl
              obtain ⟨j, hj, hbj⟩ := emitFoldersGuard_budget_le P root children _ i hb1
              obtain ⟨j2, hj2, hbj2⟩ := emitFilesGuard_budget_le P root children _ j hbj
              obtain ⟨j3, hj3, hbj3⟩ := ih (WalkTask.sibs root children) _ j2 hbj2
              exact ⟨j3, by omega, hbj3⟩
    | sibs root nodes =>
      cases nodes with
      | nil =>
        simp only [walk]
        exact ⟨k, le_refl k, h⟩
      | cons c rest =>
        cases c with
        | file fn fsz =>
          simp only [walk]
          exact ih (WalkTask.sibs root rest) s k h
        | dir n cs =>
          simp only [walk]
          split
          · obtain ⟨j, hj, hbj⟩ := ih (WalkTask.node (root ++ "/" ++ n) cs) s k h
            obtain ⟨j2, hj2, hbj2⟩ := ih (WalkTask.sibs root rest) _ j hbj
            exact ⟨j2, le_trans hj2 hj, hbj2⟩
          · exact ih (WalkTask.sibs root rest) s k h

theorem walk_budget_none (P : Params) (base : String) :
    ∀ (fuel : Nat) (task : WalkTask) (s : SState), s.budget = none →
      (walk P base fuel task s).budget = none := by
  intro fuel
  induction fuel with
  | zero => intro task s h; simpa [walk] using h
  | succ fuel ih =>
    intro task s h
    cases task with
    | node root children =>
      rcases s with ⟨sf, sc, sh, sb⟩
      simp only at h
      subst h
      rw [walk_node_eval_none]
      split
      · rfl
      · split
        · rfl
        · split
          · rfl
          · refine ih (WalkTask.sibs root children) _ ?_
            exact emitFilesGuard_budget_none P root children _
              (emitFoldersGuard_budget_none P root children _ rfl)
    | sibs root nodes =>
      cases nodes with
      | nil => simpa [walk] using h
      | cons c rest =>
        cases c with
        | file fn fsz =>
          simp only [walk]
          exact ih (WalkTask.sibs root rest) s h
        | dir n cs =>
          simp only [walk]
          split
          · exact ih (WalkTask.sibs root rest) _
              (ih (WalkTask.node (root ++ "/" ++ n) cs) s h)
          · exact ih (WalkTask.sibs root rest) s h

/-- The simulation: a budgeted walk that ends with a strictly positive
remaining budget never had a timeout check fire, so its observable outcome
coincides with the walk that has no deadline at all. -/
theorem walk_sim (P : Params) (base : String) :
    ∀ (fuel : Nat) (task : WalkTask) (s t : SState), SimR s t →
      ∀ m, (walk P base fuel task s).budget = some (m + 1) →
        SimR (walk P base fuel task s) (walk P base fuel task t) := by
  intro fuel
  induction fuel with
  | zero =>
    intro task s t hr m _
    simpa [walk] using hr
  | succ fuel ih =>
    intro task s t hr m hm
    obtain ⟨hf, hc, hh, htb, k, hb⟩ := hr
    cases task with
    | node root children =>
      rcases s with ⟨sf, sc, sh, sb⟩
      rcases t with ⟨tf, tc, th, tb⟩
      simp only at hf hc hh htb hb
      subst hf
      subst hc
      subst hh
      subst htb
      subst hb
      rw [walk_node_eval_none]
      cases k with
      | zero =>
        rw [walk_node_eval_zero] at hm
        split at hm <;> simp at hm
      | succ j =>
        rw [walk_node_eval_succ] at hm ⊢
        by_cases hsh : sh = true
        · simp only [if_pos hsh] at hm ⊢
          exact ⟨rfl, rfl, rfl, rfl, j + 1, rfl⟩
        · have hsh2 : sh = false := by
            cases sh
            · rfl
            · exact absurd rfl hsh
          subst hsh2
          simp only [Bool.false_eq_true, if_false] at hm ⊢
          by_cases hcap : (sc : Int) ≥ P.maxResults
          · simp only [if_pos hcap] at hm ⊢
            exact ⟨rfl, rfl, rfl, rfl, j, rfl⟩
          · simp only [if_neg hcap] at hm ⊢
            by_cases hd : (current_depth root base : Int) ≥ P.maxDepth
            · simp only [if_pos hd] at hm ⊢
              exact ⟨rfl, rfl, rfl, rfl, j, rfl⟩
            · simp only [if_neg hd] at hm ⊢
              have hr1 : SimR (⟨sf, sc, false, some j⟩ : SState) ⟨sf, sc, false, none⟩ :=
                ⟨rfl, rfl, rfl, rfl, j, rfl⟩
              have hb1 : ((⟨sf, sc, false, some j⟩ : SState)).budget = some j := rfl
              obtain ⟨jF, hjF, hbF⟩ := emitFoldersGuard_budget_le P root children _ j hb1
              obtain ⟨jE, hjE, hbE⟩ := emitFilesGuard_budget_le P root children _ jF hbF
              obtain ⟨jW, hjW, hbW⟩ := walk_budget_le P base fuel
                (WalkTask.sibs root children) _ jE hbE
              rw [hm] at hbW
              have hjW2 : m + 1 = jW := by injection hbW
              have hFpos : 1 ≤ jF := by omega
              obtain ⟨jF2, rfl⟩ : ∃ j2, jF = j2 + 1 := ⟨jF - 1, by omega⟩
              have hr2 := emitFoldersGuard_sim P root children _ _ hr1 jF2 hbF
              have hEpos : 1 ≤ jE := by omega
              obtain ⟨jE2, rfl⟩ : ∃ j2, jE = j2 + 1 := ⟨jE - 1, by omega⟩
              have hr3 := emitFilesGuard_sim P root children _ _ hr2 jE2 hbE
              exact ih (WalkTask.sibs root children) _ _ hr3 m hm
    | sibs root nodes =>
      cases nodes with
      | nil =>
        simpa [walk] using (⟨hf, hc, hh, htb, k, hb⟩ : SimR s t)
      | cons c rest =>
        cases c with
        | file fn fsz =>
          simp only [walk] at hm ⊢
          exact ih (WalkTask.sibs root rest) s t ⟨hf, hc, hh, htb, k, hb⟩ m hm
        | dir n cs =>
          simp only [walk] at hm ⊢
          by_cases hkn : keepName P.excluded n = true
          · simp only [if_pos hkn] at hm ⊢
            obtain ⟨jI, hjI, hbI⟩ := walk_budget_le P base fuel
              (WalkTask.node (root ++ "/" ++ n) cs) s k hb
            obtain ⟨jW, hjW, hbW⟩ := walk_budget_le P base fuel
              (WalkTask.sibs root rest) _ jI hbI
            rw [hm] at hbW
            have hjW2 : m + 1 = jW := by injection hbW
            have hIpos : 1 ≤ jI := by omega
            obtain ⟨jI2, rfl⟩ : ∃ j2, jI = j2 + 1 := ⟨jI - 1, by omega⟩
            have hr2 := ih (WalkTask.node (root ++ "/" ++ n) cs) s t
              ⟨hf, hc, hh, htb, k, hb⟩ jI2 hbI
            exact ih (WalkTask.sibs root rest) _ _ hr2 m hm
          · simp only [if_neg hkn] at hm ⊢
            exact ih (WalkTask.sibs root rest) s t ⟨hf, hc, hh, htb, k, hb⟩ m hm

/-- A run that finishes with its deadline still unreached is observably
equal to the run with no deadline. -/
theorem search_run_eq_unclocked (P : Params) (p : String) (children : List FsNode)
    (fuel : Nat) (b : Option Nat)
    (h : (walk P p fuel (WalkTask.node p children) (initState b)).budget ≠ some 0) :
    (walk P p fuel (WalkTask.node p children) (initState b)).found =
      (walk P p fuel (WalkTask.node p children) (initState none)).found ∧
    (walk P p fuel (WalkTask.node p children) (initState b)).count =
      (walk P p fuel (WalkTask.node p children) (initState none)).count := by
  cases b with
  | none => exact ⟨rfl, rfl⟩
  | some k =>
    obtain ⟨j, -, hbj⟩ := walk_budget_le P p fuel (WalkTask.node p children)
      (initState (some k)) k rfl
    cases j with
    | zero => exact absurd hbj h
    | succ j2 =>
      have hr := walk_sim P p fuel (WalkTask.node p children)
        (initState (some k)) (initState none)
        ⟨rfl, rfl, rfl, rfl, k, rfl⟩ j2 hbj
      exact ⟨hr.1, hr.2.1⟩

/-- Counterexample to claim C8: two runs of the same search over the same
unchanged filesystem, one with a clock that never reaches the deadline and
one whose very first timeout check fires, return different found_items, so
an unchanged directory-listing oracle alone does not make the items
identical. -/
theorem c8_counterexample :
    (search_drive "*" "r" "files" 50 false 3
      (some [FsNode.file "a.txt" 1]) none 9).found_items ≠
    (search_drive "*" "r" "files" 50 false 3
      (some [FsNode.file "a.txt" 1]) (some 0) 9).found_items := by
  decide

/-- Claim C8 (amended): the result of a search is a function of the
filesystem AND the clock.  Two runs of the same search against the same
unchanged filesystem yield identical found_items and identical total_count
provided neither run times out (each run ends with its deadline still
unreached); a run that does time out can return strictly fewer items. -/
theorem c8_idempotence
    (sp p st : String) (m : Int) (cs : Bool) (md : Int)
    (fs : Option (List FsNode)) (fuel : Nat) (b1 b2 : Option Nat)
    (h1 : searchNotTimedOut sp p st m cs md fs b1 fuel = true)
    (h2 : searchNotTimedOut sp p st m cs md fs b2 fuel = true) :
    (search_drive sp p st m cs md fs b1 fuel).found_items =
      (search_drive sp p st m cs md fs b2 fuel).found_items ∧
    (search_drive sp p st m cs md fs b1 fuel).total_count =
      (search_drive sp p st m cs md fs b2 fuel).total_count := by
  cases fs with
  | none => exact ⟨rfl, rfl⟩
  | some children =>
    have key : ∀ b : Option Nat,
        searchNotTimedOut sp p st m cs md (some children) b fuel = true →
        (search_drive sp p st m cs md (some children) b fuel).found_items =
          (search_drive sp p st m cs md (some children) none fuel).found_items ∧
        (search_drive sp p st m cs md (some children) b fuel).total_count =
          (search_drive sp p st m cs md (some children) none fuel).total_count := by
      intro b hb
      simp only [search_drive]
      simp only [searchNotTimedOut] at hb
      refine search_run_eq_unclocked _ p children fuel b ?_
      intro hzero
      rw [hzero] at hb
      exact absurd hb (by simp)
    obtain ⟨hf1, hc1⟩ := key b1 h1
    obtain ⟨hf2, hc2⟩ := key b2 h2
    exact ⟨hf1.trans hf2.symm, hc1.trans hc2.symm⟩

/-- Witness for c8_idempotence at a concrete search: a run with a clock
that never reaches the deadline and a run with a large enough budget. -/
theorem c8_idempotence_witness :
    searchNotTimedOut "*" "r" "files" 50 false 3
      (some [FsNode.file "a.txt" 1]) none 9 = true ∧
    searchNotTimedOut "*" "r" "files" 50 false 3
      (some [FsNode.file "a.txt" 1]) (some 7) 9 = true ∧
    ((search_drive "*" "r" "files" 50 false 3
        (some [FsNode.file "a.txt" 1]) none 9).found_items =
      (search_drive "*" "r" "files" 50 false 3
        (some [FsNode.file "a.txt" 1]) (some 7) 9).found_items ∧
     (search_drive "*" "r" "files" 50 false 3
        (some [FsNode.file "a.txt" 1]) none 9).total_count =
      (search_drive "*" "r" "files" 50 false 3
        (some [FsNode.file "a.txt" 1]) (some 7) 9).total_count) :=
  ⟨by decide, by decide,
   c8_idempotence "*" "r" "files" 50 false 3 (some [FsNode.file "a.txt" 1]) 9
     none (some 7) (by decide) (by decide)⟩

end FileHandler
